import Mathlib

/-!
Verification of the gmail_to_sheets repository core: a shallow embedding of
the email-to-record transformation and filter/dedup pipeline implemented in
src/main.py (FilterConfig, GmailToSheets.process_emails,
GmailToSheets.extract_filter_matches) and src/email_parser.py
(EmailParser.parse_email, get_email_bodies, html_to_text, parse_date, and
the HTMLFilter helper class).

Modelling conventions:
  * Python strings are Lean String values; Python list/str slicing s[:n] is
    chopLeft, str.lower() is pyLower (ASCII case folding, matching the
    behaviour on the ASCII inputs the pipeline handles), str.strip() is
    pyStrip, and re.sub patterns used by the source are embedded as the
    dedicated functions pyCollapseWs (whitespace run collapsing) and
    collapseBlankLines.
  * Python dict lookups that may raise KeyError are modelled with Option
    fields; an uncaught lookup on a missing key is an explicit PyErr value
    propagated in Except, exactly where the source indexes a dict without
    a guard.
  * Standard-library calls whose behaviour the repository relies on
    (base64.urlsafe_b64decode + utf-8 decode, html.unescape) are passed in
    as explicit function parameters, so theorems quantify over them and
    witnesses instantiate them concretely.
  * datetime.strptime / strftime are embedded by executable parsers and
    printers for the five concrete format strings appearing in
    EmailParser.parse_date, following the documented CPython strptime
    regex semantics (alternation order, backtracking, full-match,
    post-match range validation by the datetime constructor).
-/

set_option maxRecDepth 4096

namespace GmailToSheets

/-- Python whitespace for str.strip / regex \s on the ASCII inputs handled
by this pipeline: space, tab, newline, carriage return, vertical tab,
form feed. -/
def isPySpace (c : Char) : Bool :=
  c = ' ' || c = '\t' || c = '\n' || c = '\r' || c = '\x0b' || c = '\x0c'

/-- Python str.lower, charwise ASCII case folding. -/
def pyLower (s : String) : String := String.mk (s.data.map Char.toLower)

/-- Python slicing s[:n] over code points. -/
def chopLeft (n : Nat) (s : String) : String := String.mk (s.data.take n)

/-- Python str.strip on a char list: drop leading and trailing whitespace. -/
def stripChars (l : List Char) : List Char :=
  ((l.dropWhile isPySpace).reverse.dropWhile isPySpace).reverse

/-- Python str.strip. -/
def pyStrip (s : String) : String := String.mk (stripChars s.data)

theorem length_dropWhile_le_local {α : Type} (p : α → Bool) :
    ∀ l : List α, (l.dropWhile p).length ≤ l.length := by
  intro l
  induction l with
  | nil => simp [List.dropWhile]
  | cons c cs ih =>
    by_cases h : p c = true
    · simp only [List.dropWhile, h, List.length_cons]
      omega
    · simp [List.dropWhile, h]

mutual

/-- One pass of re.sub(r"\s+", " ", _): every maximal whitespace run
becomes a single space. -/
def collapseWsChars : List Char → List Char
  | [] => []
  | c :: cs =>
    if isPySpace c then ' ' :: collapseWsSkip cs
    else c :: collapseWsChars cs

/-- Inside a whitespace run already replaced by one space: drop the
remaining whitespace. -/
def collapseWsSkip : List Char → List Char
  | [] => []
  | c :: cs =>
    if isPySpace c then collapseWsSkip cs
    else c :: collapseWsChars cs

end

/-- re.sub(r"\s+", " ", s) as used throughout email_parser.py. -/
def pyCollapseWs (s : String) : String := String.mk (collapseWsChars s.data)

/-- Occurrence test: needle occurs in hay starting at index p. -/
def occursAt (needle hay : List Char) (p : Nat) : Bool :=
  needle.isPrefixOf (hay.drop p)

/-- Python substring containment needle in hay. -/
def pyContains (hay needle : String) : Bool :=
  (List.range (hay.data.length + 1)).any fun p => occursAt needle.data hay.data p

/-- Python "c in s" for a single character. -/
def pyHasChar (s : String) (c : Char) : Bool := s.data.contains c

/-- Python s.split(sep)[-1] preliminaries: split a char list on a single
separator char, keeping empty fields (Python str.split with an explicit
separator). -/
def splitOnChar (sep : Char) : List Char → List (List Char)
  | [] => [[]]
  | c :: cs =>
    if c = sep then [] :: splitOnChar sep cs
    else
      match splitOnChar sep cs with
      | [] => [[c]]
      | f :: rest => (c :: f) :: rest

/-- The domain portion computed at src/main.py lines 57 and 218:
from_email.split("@")[-1] if "@" in from_email else "". -/
def domainOf (fromEmail : String) : String :=
  if pyHasChar fromEmail '@' then
    String.mk ((splitOnChar '@' fromEmail.data).getLastD [])
  else ""

/-- FilterConfig (src/main.py lines 23-41): persisted filter settings. -/
structure FilterConfig where
  enable_filtering : Bool
  subject_keywords : List String
  sender_domains : List String
  min_date : Option String
  max_date : Option String

/-- The record dictionary built by EmailParser.parse_email
(src/email_parser.py lines 100-111). -/
structure EmailData where
  id : String
  fromEmail : String
  subject : String
  date : String
  body : String
  html_body : Option String
deriving DecidableEq, Repr

/-- Subject axis of FilterConfig.should_process_email (src/main.py lines
49-52): at least one keyword is a case-insensitive substring of the
record subject. -/
def subjectAxisPasses (cfg : FilterConfig) (subject : String) : Bool :=
  cfg.subject_keywords.any fun keyword => pyContains (pyLower subject) (pyLower keyword)

/-- Domain axis of FilterConfig.should_process_email (src/main.py lines
55-59).  The source reads: `if domain and domain.lower() not in
[d.lower() for d in self.sender_domains]: return False`, so an empty
domain (no "@" in the from field) falls through and the axis passes. -/
def domainAxisPasses (cfg : FilterConfig) (fromEmail : String) : Bool :=
  let domain := domainOf fromEmail
  !(domain ≠ "" && !((cfg.sender_domains.map pyLower).contains (pyLower domain)))

/-- Python exception values that the embedded code can raise. -/
inductive PyErr where
  | keyError : PyErr
  | nameError : PyErr
deriving DecidableEq, Repr

/-- The body of the try block of the date axis (src/main.py lines 63-74).
Its first statement evaluates datetime.strptime, but main.py never imports
datetime (its imports are os, json, re and the three service modules), so
evaluating the name datetime raises NameError before any comparison
happens. -/
def dateAxisTry (_cfg : FilterConfig) (_date : String) : Except PyErr Bool :=
  Except.error PyErr.nameError

/-- Date axis of FilterConfig.should_process_email (src/main.py lines
62-76): the bare `except: pass` swallows the NameError, so the axis always
passes. -/
def dateAxisPasses (cfg : FilterConfig) (date : String) : Bool :=
  match dateAxisTry cfg date with
  | Except.ok b => b
  | Except.error _ => true

/-- FilterConfig.should_process_email (src/main.py lines 43-78). -/
def should_process_email (cfg : FilterConfig) (email_data : EmailData) : Bool :=
  if !cfg.enable_filtering then true
  else if !cfg.subject_keywords.isEmpty && !subjectAxisPasses cfg email_data.subject then
    false
  else if !cfg.sender_domains.isEmpty && !domainAxisPasses cfg email_data.fromEmail then
    false
  else if (cfg.min_date.isSome || cfg.max_date.isSome) && !dateAxisPasses cfg email_data.date then
    false
  else true

/-- The subject part of GmailToSheets.extract_filter_matches (src/main.py
lines 208-213): the first keyword contained in the lowered subject, if
any, rendered as a match reason. -/
def subjectMatchReason (cfg : FilterConfig) (email_data : EmailData) : Option String :=
  if cfg.subject_keywords.isEmpty then none
  else
    match cfg.subject_keywords.find? (fun keyword =>
        pyContains (pyLower email_data.subject) (pyLower keyword)) with
    | some keyword => some ("Subject: " ++ keyword)
    | none => none

/-- The domain part of GmailToSheets.extract_filter_matches (src/main.py
lines 216-223). -/
def domainMatchReason (cfg : FilterConfig) (email_data : EmailData) : Option String :=
  if cfg.sender_domains.isEmpty then none
  else
    let domain := domainOf email_data.fromEmail
    if domain ≠ "" then
      match cfg.sender_domains.find? (fun allowed => pyLower domain = pyLower allowed) with
      | some _ => some ("Domain: " ++ domain)
      | none => none
    else none

/-- GmailToSheets.extract_filter_matches (src/main.py lines 203-225). -/
def extract_filter_matches (cfg : FilterConfig) (email_data : EmailData) : String :=
  let reasons := (subjectMatchReason cfg email_data).toList ++
    (domainMatchReason cfg email_data).toList
  if reasons.isEmpty then "No filter match"
  else String.intercalate ", " reasons

/-! ## DateNormalizer: EmailParser.parse_date (src/email_parser.py 188-216)

datetime.strptime is embedded per concrete format string, following the
CPython _strptime implementation: each directive becomes a regex
alternation tried in the documented order with backtracking, the whole
format must consume the whole input, and the datetime constructor then
range-checks the captured fields (day against month length, leap years,
seconds below 60); a constructor failure fails the format as a whole. -/

/-- Numeric value of a digit character. -/
def digitVal (c : Char) : Nat := c.toNat - '0'.toNat

/-- A parse candidate: captured value and remaining input.  Lists keep all
backtracking alternatives in regex alternation order. -/
abbrev Cands (α : Type) := List (α × List Char)

/-- strptime %d, regex 3[0-1]|[1-2]\d|0[1-9]|[1-9]| [1-9] (the last
alternative absorbs a blank-padded single digit). -/
def dayCands : List Char → Cands Nat
  | c1 :: c2 :: rest =>
    (if c1 = '3' && (c2 = '0' || c2 = '1') then [(30 + digitVal c2, rest)] else []) ++
    (if (c1 = '1' || c1 = '2') && c2.isDigit then
      [(10 * digitVal c1 + digitVal c2, rest)] else []) ++
    (if c1 = '0' && ('1' ≤ c2 && c2 ≤ '9') then [(digitVal c2, rest)] else []) ++
    (if '1' ≤ c1 && c1 ≤ '9' then [(digitVal c1, c2 :: rest)] else []) ++
    (if c1 = ' ' && ('1' ≤ c2 && c2 ≤ '9') then [(digitVal c2, rest)] else [])
  | [c1] => if '1' ≤ c1 && c1 ≤ '9' then [(digitVal c1, [])] else []
  | [] => []

/-- strptime %m, regex 1[0-2]|0[1-9]|[1-9]. -/
def monthCands : List Char → Cands Nat
  | c1 :: c2 :: rest =>
    (if c1 = '1' && ('0' ≤ c2 && c2 ≤ '2') then [(10 + digitVal c2, rest)] else []) ++
    (if c1 = '0' && ('1' ≤ c2 && c2 ≤ '9') then [(digitVal c2, rest)] else []) ++
    (if '1' ≤ c1 && c1 ≤ '9' then [(digitVal c1, c2 :: rest)] else [])
  | [c1] => if '1' ≤ c1 && c1 ≤ '9' then [(digitVal c1, [])] else []
  | [] => []

/-- strptime %H, regex 2[0-3]|[0-1]\d|\d. -/
def hourCands : List Char → Cands Nat
  | c1 :: c2 :: rest =>
    (if c1 = '2' && ('0' ≤ c2 && c2 ≤ '3') then [(20 + digitVal c2, rest)] else []) ++
    (if (c1 = '0' || c1 = '1') && c2.isDigit then
      [(10 * digitVal c1 + digitVal c2, rest)] else []) ++
    (if c1.isDigit then [(digitVal c1, c2 :: rest)] else [])
  | [c1] => if c1.isDigit then [(digitVal c1, [])] else []
  | [] => []

/-- strptime %M, regex [0-5]\d|\d. -/
def minuteCands : List Char → Cands Nat
  | c1 :: c2 :: rest =>
    (if ('0' ≤ c1 && c1 ≤ '5') && c2.isDigit then
      [(10 * digitVal c1 + digitVal c2, rest)] else []) ++
    (if c1.isDigit then [(digitVal c1, c2 :: rest)] else [])
  | [c1] => if c1.isDigit then [(digitVal c1, [])] else []
  | [] => []

/-- strptime %S, regex 6[0-1]|[0-5]\d|\d. -/
def secondCands : List Char → Cands Nat
  | c1 :: c2 :: rest =>
    (if c1 = '6' && (c2 = '0' || c2 = '1') then [(60 + digitVal c2, rest)] else []) ++
    (if ('0' ≤ c1 && c1 ≤ '5') && c2.isDigit then
      [(10 * digitVal c1 + digitVal c2, rest)] else []) ++
    (if c1.isDigit then [(digitVal c1, c2 :: rest)] else [])
  | [c1] => if c1.isDigit then [(digitVal c1, [])] else []
  | [] => []

/-- strptime %Y, regex \d\d\d\d (exactly four digits). -/
def yearCands : List Char → Cands Nat
  | c1 :: c2 :: c3 :: c4 :: rest =>
    if c1.isDigit && c2.isDigit && c3.isDigit && c4.isDigit then
      [(1000 * digitVal c1 + 100 * digitVal c2 + 10 * digitVal c3 + digitVal c4, rest)]
    else []
  | _ => []

/-- Case-insensitive name alternation (strptime %a / %b / %Z); the names
are stored lowercase and the input is folded, matching the IGNORECASE
compilation of the strptime regex.  The captured value is the index of the
matched name, offset by the start argument. -/
def nameCands (names : List (List Char)) (start : Nat) (l : List Char) : Cands Nat :=
  match names with
  | [] => []
  | n :: rest =>
    (if n.isPrefixOf (l.map Char.toLower) then [(start, l.drop n.length)] else []) ++
    nameCands rest (start + 1) l

/-- C-locale abbreviated weekday names for %a (captured value unused:
strptime ignores an inconsistent weekday when the full date is given). -/
def weekdayCands (l : List Char) : Cands Nat :=
  nameCands (["mon", "tue", "wed", "thu", "fri", "sat", "sun"].map String.data) 0 l

/-- C-locale abbreviated month names for %b; captures the month number. -/
def monthNameCands (l : List Char) : Cands Nat :=
  nameCands (["jan", "feb", "mar", "apr", "may", "jun",
              "jul", "aug", "sep", "oct", "nov", "dec"].map String.data) 1 l

/-- A literal (non-letter) character of the format string. -/
def litCands (c : Char) : List Char → Cands Unit
  | x :: rest => if x = c then [((), rest)] else []
  | [] => []

/-- Whitespace in the format string is compiled to \s+; candidates are
listed greedy-first as the regex engine backtracks. -/
def wsCands (l : List Char) : Cands Unit :=
  let n := (l.takeWhile isPySpace).length
  (List.range n).map fun i => ((), l.drop (n - i))

/-- Two digits with the first in [0-5] (minute/second core of %z). -/
def minuteTwo (l : List Char) : Option (Nat × List Char) :=
  match l with
  | m1 :: m2 :: r =>
    if ('0' ≤ m1 && m1 ≤ '5') && m2.isDigit then
      some (10 * digitVal m1 + digitVal m2, r)
    else none
  | _ => none

/-- Consume one optional colon (the :? of the %z regex). -/
def afterOptColon (l : List Char) : List Char :=
  match l with
  | ':' :: r => r
  | _ => l

/-- The optional fractional part (\.\d{1,6})? of %z: possible rests. -/
def fracTails (l : List Char) : List (List Char) :=
  match l with
  | '.' :: r =>
    let ds := min (r.takeWhile Char.isDigit).length 6
    ((List.range ds).map fun k => r.drop (k + 1)) ++ [l]
  | _ => [l]

/-- The optional seconds group (:?[0-5]\d(\.\d{1,6})?)? of %z. -/
def tzSecTails (l : List Char) : List (List Char) :=
  (match minuteTwo (afterOptColon l) with
   | some (_, r) => fracTails r
   | none => []) ++ [l]

/-- strptime %z, regex [+-]\d\d:?[0-5]\d(:?[0-5]\d(\.\d{1,6})?)?|Z.  The
captured offset is dropped on output (strftime without %z), so candidates
carry 0; offsets of 24 hours or more are rejected, mirroring the
ValueError raised by the timezone constructor. -/
def tzCands (l : List Char) : Cands Nat :=
  (match l with
   | s :: h1 :: h2 :: r2 =>
     if (s = '+' || s = '-') && h1.isDigit && h2.isDigit &&
         (10 * digitVal h1 + digitVal h2) < 24 then
       match minuteTwo (afterOptColon r2) with
       | some (_, r4) => (tzSecTails r4).map fun t => (0, t)
       | none => []
     else []
   | _ => []) ++
  (match l with
   | 'Z' :: rest => [(0, rest)]
   | _ => [])

/-- Timezone names recognised by %Z (time.tzname plus utc/gmt in CPython;
the format containing %Z is unreachable because parse_date strips the
input at the first " (" before matching). -/
def tzNameCands (l : List Char) : Cands Nat :=
  nameCands (["utc", "gmt"].map String.data) 0 l

/-- The naive datetime produced by a successful strptime call. -/
structure PyDateTime where
  year : Nat
  month : Nat
  day : Nat
  hour : Nat
  minute : Nat
  second : Nat
deriving DecidableEq, Repr

/-- Month length used by the datetime constructor validation. -/
def daysInMonth (y m : Nat) : Nat :=
  if m = 2 then
    if (y % 4 = 0 && y % 100 ≠ 0) || y % 400 = 0 then 29 else 28
  else if m = 4 || m = 6 || m = 9 || m = 11 then 30 else 31

/-- Field validation performed by datetime(year, month, day, hour, minute,
second): MINYEAR..MAXYEAR, month and day ranges (leap-aware), hour below
24, minute and second below 60 (the %S leap-second captures 60 and 61 are
rejected here). -/
def validDate (dt : PyDateTime) : Bool :=
  1 ≤ dt.year && dt.year ≤ 9999 && 1 ≤ dt.month && dt.month ≤ 12 &&
  1 ≤ dt.day && dt.day ≤ daysInMonth dt.year dt.month &&
  dt.hour ≤ 23 && dt.minute ≤ 59 && dt.second ≤ 59

/-- "%a, %d %b %Y %H:%M:%S %z" (first entry of date_formats). -/
def fmt1Matches (l : List Char) : Cands PyDateTime :=
  (weekdayCands l).flatMap fun pa =>
  (litCands ',' pa.2).flatMap fun pc =>
  (wsCands pc.2).flatMap fun p1 =>
  (dayCands p1.2).flatMap fun pd =>
  (wsCands pd.2).flatMap fun p2 =>
  (monthNameCands p2.2).flatMap fun pm =>
  (wsCands pm.2).flatMap fun p3 =>
  (yearCands p3.2).flatMap fun py =>
  (wsCands py.2).flatMap fun p4 =>
  (hourCands p4.2).flatMap fun ph =>
  (litCands ':' ph.2).flatMap fun p5 =>
  (minuteCands p5.2).flatMap fun pn =>
  (litCands ':' pn.2).flatMap fun p6 =>
  (secondCands p6.2).flatMap fun ps =>
  (wsCands ps.2).flatMap fun p7 =>
  (tzCands p7.2).map fun pz =>
  (⟨py.1, pm.1, pd.1, ph.1, pn.1, ps.1⟩, pz.2)

/-- "%d %b %Y %H:%M:%S %z" (second entry of date_formats). -/
def fmt2Matches (l : List Char) : Cands PyDateTime :=
  (dayCands l).flatMap fun pd =>
  (wsCands pd.2).flatMap fun p2 =>
  (monthNameCands p2.2).flatMap fun pm =>
  (wsCands pm.2).flatMap fun p3 =>
  (yearCands p3.2).flatMap fun py =>
  (wsCands py.2).flatMap fun p4 =>
  (hourCands p4.2).flatMap fun ph =>
  (litCands ':' ph.2).flatMap fun p5 =>
  (minuteCands p5.2).flatMap fun pn =>
  (litCands ':' pn.2).flatMap fun p6 =>
  (secondCands p6.2).flatMap fun ps =>
  (wsCands ps.2).flatMap fun p7 =>
  (tzCands p7.2).map fun pz =>
  (⟨py.1, pm.1, pd.1, ph.1, pn.1, ps.1⟩, pz.2)

/-- "%Y-%m-%d %H:%M:%S" (third entry of date_formats). -/
def fmt3Matches (l : List Char) : Cands PyDateTime :=
  (yearCands l).flatMap fun py =>
  (litCands '-' py.2).flatMap fun p1 =>
  (monthCands p1.2).flatMap fun pm =>
  (litCands '-' pm.2).flatMap fun p2 =>
  (dayCands p2.2).flatMap fun pd =>
  (wsCands pd.2).flatMap fun p3 =>
  (hourCands p3.2).flatMap fun ph =>
  (litCands ':' ph.2).flatMap fun p4 =>
  (minuteCands p4.2).flatMap fun pn =>
  (litCands ':' pn.2).flatMap fun p5 =>
  (secondCands p5.2).map fun ps =>
  (⟨py.1, pm.1, pd.1, ph.1, pn.1, ps.1⟩, ps.2)

/-- "%d %b %Y %H:%M:%S %z (%Z)" (fourth entry of date_formats). -/
def fmt4Matches (l : List Char) : Cands PyDateTime :=
  (dayCands l).flatMap fun pd =>
  (wsCands pd.2).flatMap fun p2 =>
  (monthNameCands p2.2).flatMap fun pm =>
  (wsCands pm.2).flatMap fun p3 =>
  (yearCands p3.2).flatMap fun py =>
  (wsCands py.2).flatMap fun p4 =>
  (hourCands p4.2).flatMap fun ph =>
  (litCands ':' ph.2).flatMap fun p5 =>
  (minuteCands p5.2).flatMap fun pn =>
  (litCands ':' pn.2).flatMap fun p6 =>
  (secondCands p6.2).flatMap fun ps =>
  (wsCands ps.2).flatMap fun p7 =>
  (tzCands p7.2).flatMap fun pz =>
  (wsCands pz.2).flatMap fun p8 =>
  (litCands '(' p8.2).flatMap fun p9 =>
  (tzNameCands p9.2).flatMap fun pt =>
  (litCands ')' pt.2).map fun pe =>
  (⟨py.1, pm.1, pd.1, ph.1, pn.1, ps.1⟩, pe.2)

/-- "%Y/%m/%d %H:%M:%S" (fifth entry of date_formats). -/
def fmt5Matches (l : List Char) : Cands PyDateTime :=
  (yearCands l).flatMap fun py =>
  (litCands '/' py.2).flatMap fun p1 =>
  (monthCands p1.2).flatMap fun pm =>
  (litCands '/' pm.2).flatMap fun p2 =>
  (dayCands p2.2).flatMap fun pd =>
  (wsCands pd.2).flatMap fun p3 =>
  (hourCands p3.2).flatMap fun ph =>
  (litCands ':' ph.2).flatMap fun p4 =>
  (minuteCands p4.2).flatMap fun pn =>
  (litCands ':' pn.2).flatMap fun p5 =>
  (secondCands p5.2).map fun ps =>
  (⟨py.1, pm.1, pd.1, ph.1, pn.1, ps.1⟩, ps.2)

/-- One datetime.strptime call: the regex chooses the first full match in
backtracking order, then the datetime constructor validates the captured
fields; a validation failure raises, failing this format. -/
def runFormat (fmt : List Char → Cands PyDateTime) (l : List Char) : Option PyDateTime :=
  match (fmt l).find? (fun c => c.2.isEmpty) with
  | some c => if validDate c.1 then some c.1 else none
  | none => none

/-- The date_formats list of EmailParser.parse_date, in source order. -/
def pyDateFormats : List (List Char → Cands PyDateTime) :=
  [fmt1Matches, fmt2Matches, fmt3Matches, fmt4Matches, fmt5Matches]

/-- Zero-padded two-digit strftime field. -/
def pad2 (n : Nat) : List Char := [Nat.digitChar (n / 10 % 10), Nat.digitChar (n % 10)]

/-- Zero-padded four-digit strftime %Y field (documented CPython
rendering; years in the pipeline are four-digit). -/
def pad4 (n : Nat) : List Char :=
  [Nat.digitChar (n / 1000 % 10), Nat.digitChar (n / 100 % 10),
   Nat.digitChar (n / 10 % 10), Nat.digitChar (n % 10)]

/-- dt.strftime("%Y-%m-%d %H:%M:%S"): the canonical timestamp rendering;
the parsed utc offset is dropped. -/
def strftimeCanonical (dt : PyDateTime) : String :=
  String.mk (pad4 dt.year ++ '-' :: pad2 dt.month ++ '-' :: pad2 dt.day ++
    ' ' :: pad2 dt.hour ++ ':' :: pad2 dt.minute ++ ':' :: pad2 dt.second)

/-- Python s.split(sep)[0]: the portion before the first occurrence of sep
(the whole string when sep does not occur). -/
def takeBeforeSub (sep : List Char) : List Char → List Char
  | [] => []
  | c :: cs => if sep.isPrefixOf (c :: cs) then [] else c :: takeBeforeSub sep cs

/-- date_string.split(" (")[0].split(" GMT")[0] (src/email_parser.py 205). -/
def cleanDateString (s : String) : String :=
  String.mk (takeBeforeSub " GMT".data (takeBeforeSub " (".data s.data))

/-- EmailParser.parse_date (src/email_parser.py lines 188-216): empty in,
empty out; otherwise the cleaned string is tried against the five formats
in order, the first success is rendered canonically, and total failure
returns the original string unchanged. -/
def parse_date (date_string : String) : String :=
  if date_string = "" then ""
  else
    match pyDateFormats.findSome?
        (fun f => runFormat f (cleanDateString date_string).data) with
    | some dt => strftimeCanonical dt
    | none => date_string

/-! ## MessageDecoder: EmailParser.parse_email and helpers
(src/email_parser.py lines 7-155)

The Gmail API message dictionaries are embedded structurally; every dict
key the source reads without a guard is an Option field whose none case
produces PyErr.keyError, and keys read through dict.get with a default
are embedded with that default. -/

theorem length_takeWhile_le_local {α : Type} (p : α → Bool) :
    ∀ l : List α, (l.takeWhile p).length ≤ l.length := by
  intro l
  induction l with
  | nil => simp [List.takeWhile]
  | cons c cs ih =>
    by_cases h : p c = true
    · simp only [List.takeWhile, h, List.length_cons]
      omega
    · simp only [List.takeWhile]
      rw [Bool.eq_false_iff.mpr h]
      simp

/-- The "body" sub-dictionary of a message part. -/
structure PBody where
  data : Option String
deriving DecidableEq, Repr

/-- A message part: mimeType, body and sub-parts.  Sub-parts are read by
the source through part.get("parts", []), so a missing key and an empty
list are indistinguishable and both embed as []. -/
inductive PPart where
  | mk (mimeType : Option String) (body : Option PBody) (parts : List PPart)

/-- One entry of payload["headers"]. -/
structure Header where
  name : Option String
  value : Option String
deriving DecidableEq, Repr

/-- The message payload.  The top level distinguishes a present "parts"
key (multipart branch) from an absent one (single-part branch), so parts
is an Option here. -/
structure Payload where
  headers : Option (List Header)
  mimeType : Option String
  body : Option PBody
  parts : Option (List PPart)

/-- A raw Gmail message as handed to EmailParser.parse_email. -/
structure PyMessage where
  id : Option String
  payload : Option Payload

/-- mime_type.startswith("multipart/"). -/
def isMultipartMime (mime : String) : Bool :=
  "multipart/".data.isPrefixOf mime.data

mutual

/-- The inner extract_from_part closure of EmailParser.get_email_bodies
(src/email_parser.py lines 120-139), threading the nonlocal
(plain_text, html_text) pair.  A text/plain or text/html part lacking the
"body" key raises KeyError (the source indexes part["body"] unguarded);
a longer candidate replaces the current one, ties keep the first. -/
def extract_from_part (decode : String → String) (st : String × String) :
    PPart → Except PyErr (String × String)
  | PPart.mk mimeType body parts =>
    let mime := pyLower (mimeType.getD "")
    if mime = "text/plain" then
      match body with
      | none => Except.error PyErr.keyError
      | some b =>
        match b.data with
        | none => Except.ok st
        | some d =>
          let text := decode d
          if st.1 = "" || text.length > st.1.length then Except.ok (text, st.2)
          else Except.ok st
    else if mime = "text/html" then
      match body with
      | none => Except.error PyErr.keyError
      | some b =>
        match b.data with
        | none => Except.ok st
        | some d =>
          let h := decode d
          if st.2 = "" || h.length > st.2.length then Except.ok (st.1, h)
          else Except.ok st
    else if isMultipartMime mime then extract_from_parts decode st parts
    else Except.ok st

/-- The for-loop over sub-parts inside extract_from_part; an exception
from a sub-part propagates. -/
def extract_from_parts (decode : String → String) (st : String × String) :
    List PPart → Except PyErr (String × String)
  | [] => Except.ok st
  | p :: rest =>
    match extract_from_part decode st p with
    | Except.error e => Except.error e
    | Except.ok st2 => extract_from_parts decode st2 rest

end

/-- EmailParser.get_email_bodies (src/email_parser.py lines 114-155):
multipart branch when "parts" is present, otherwise the single-part
branch, which reads the body through dict.get and so cannot raise. -/
def get_email_bodies (decode : String → String) (payload : Payload) :
    Except PyErr (String × String) :=
  match payload.parts with
  | some parts => extract_from_parts decode ("", "") parts
  | none =>
    let mime := pyLower (payload.mimeType.getD "")
    match payload.body with
    | some b =>
      match b.data with
      | some d =>
        let dataStr := decode d
        if mime = "text/plain" then Except.ok (dataStr, "")
        else if mime = "text/html" then Except.ok ("", dataStr)
        else Except.ok ("", "")
      | none => Except.ok ("", "")
    | none => Except.ok ("", "")

/-! ### HTMLFilter (src/email_parser.py lines 7-41) -/

/-- Tokenizer events fed to the HTMLFilter handlers. -/
inductive HtmlEvent where
  | startTag (name : String)
  | endTag (name : String)
  | dataChunk (text : String)
deriving DecidableEq, Repr

/-- Tag name: the characters before the first whitespace, slash or
closing bracket, lowercased (html.parser delivers tag names lowercased;
the source lowers them again). -/
def tagNameOf (l : List Char) : String :=
  String.mk ((l.takeWhile fun c => !(isPySpace c || c = '/' || c = '>')).map Char.toLower)

mutual

/-- Model of the stdlib html.parser tokenization for the tag soup this
pipeline handles: a "<" opens a tag closed by the next ">", a leading "/"
marks an end tag, attributes are skipped, text between tags is a data
event, and an unterminated "<" at end of input stays buffered and emits
nothing. -/
def tokenizeHtml : List Char → List HtmlEvent
  | [] => []
  | '<' :: rest => tokenizeTag [] rest
  | c :: rest => tokenizeData [c] rest

/-- Inside a tag: collect (reversed) content until the closing ">". -/
def tokenizeTag (acc : List Char) : List Char → List HtmlEvent
  | [] => []
  | '>' :: rest =>
    (match acc.reverse with
     | '/' :: nm => HtmlEvent.endTag (tagNameOf nm)
     | [] => HtmlEvent.dataChunk "<>"
     | inner => HtmlEvent.startTag (tagNameOf inner)) :: tokenizeHtml rest
  | c :: rest => tokenizeTag (c :: acc) rest

/-- Inside a text run: collect (reversed) characters until "<". -/
def tokenizeData (acc : List Char) : List Char → List HtmlEvent
  | [] => [HtmlEvent.dataChunk (String.mk acc.reverse)]
  | '<' :: rest => HtmlEvent.dataChunk (String.mk acc.reverse) :: tokenizeTag [] rest
  | c :: rest => tokenizeData (c :: acc) rest

end

/-- HTMLFilter state: collected text fragments and the current tag. -/
structure HtmlFilterState where
  text : List String
  current_tag : Option String

/-- Tags whose start event appends a newline (handle_starttag). -/
def startNewlineTags : List String :=
  ["p", "br", "div", "h1", "h2", "h3", "h4", "h5", "h6", "li"]

/-- Tags whose end event appends a newline (handle_endtag). -/
def endNewlineTags : List String :=
  ["p", "div", "h1", "h2", "h3", "h4", "h5", "h6", "li", "ul", "ol"]

/-- ignore_tags of HTMLFilter. -/
def ignoreTags : List String := ["script", "style", "head", "title", "meta"]

/-- The three HTMLFilter handlers (src/email_parser.py lines 15-32). -/
def handleEvent (st : HtmlFilterState) (e : HtmlEvent) : HtmlFilterState :=
  match e with
  | HtmlEvent.startTag t =>
    let st1 : HtmlFilterState := { st with current_tag := some t }
    if startNewlineTags.contains t then { st1 with text := st1.text ++ ["\n"] }
    else if t = "td" then { st1 with text := st1.text ++ [" "] }
    else st1
  | HtmlEvent.endTag t =>
    let st1 : HtmlFilterState := { st with current_tag := none }
    if endNewlineTags.contains t then { st1 with text := st1.text ++ ["\n"] }
    else st1
  | HtmlEvent.dataChunk d =>
    let ignored := match st.current_tag with
      | some t => ignoreTags.contains t
      | none => false
    if ignored then st
    else
      let cleaned := pyStrip d
      if cleaned ≠ "" then { st with text := st.text ++ [cleaned] } else st

mutual

/-- re.sub(r"\n\s*\n", "\n", _) from HTMLFilter.get_text: a newline
followed by greedy whitespace ending at the last newline of the run is
replaced by a single newline (the replacement and the matched opening
newline coincide, so the scan emits one newline, the whitespace trailing
the last newline of the run, and resumes after the match). -/
def collapseBlankLinesChars : List Char → List Char
  | [] => []
  | c :: cs =>
    if c = '\n' then nlRunScan [] cs
    else c :: collapseBlankLinesChars cs

/-- After an opening newline: buf holds the non-newline whitespace seen
since the last newline of the run. -/
def nlRunScan (buf : List Char) : List Char → List Char
  | [] => '\n' :: buf
  | c :: cs =>
    if c = '\n' then nlRunScan [] cs
    else if isPySpace c then nlRunScan (buf ++ [c]) cs
    else '\n' :: (buf ++ c :: collapseBlankLinesChars cs)

end

/-- HTMLFilter.get_text (src/email_parser.py lines 34-41): join the
fragments with single spaces, collapse blank lines, collapse whitespace
runs, strip. -/
def filterGetText (st : HtmlFilterState) : String :=
  pyStrip (pyCollapseWs (String.mk
    (collapseBlankLinesChars (String.intercalate " " st.text).data)))

/-- First index of needle in hay, comparing case-insensitively. -/
def findSubIdxCI (needle hay : List Char) : Option Nat :=
  (List.range (hay.length + 1)).find? fun p =>
    occursAt (needle.map Char.toLower) (hay.map Char.toLower) p

/-- One script/style block removal step of the fallback regex
re.sub(r"<(script|style).*?>.*?</\1>", "", _, DOTALL | IGNORECASE):
at an opening tag, the non-greedy groups reach the first ">" and then the
first matching close tag. -/
def dropTagBlock (o cl l : List Char) : Option (List Char) :=
  if (o.map Char.toLower).isPrefixOf (l.map Char.toLower) then
    if ((l.drop o.length).takeWhile (· ≠ '>')).length = (l.drop o.length).length then none
    else
      match findSubIdxCI cl ((l.drop o.length).drop
          (((l.drop o.length).takeWhile (· ≠ '>')).length + 1)) with
      | some i => some (((l.drop o.length).drop
          (((l.drop o.length).takeWhile (· ≠ '>')).length + 1)).drop (i + cl.length))
      | none => none
  else none

theorem dropTagBlock_length_lt (o cl l r : List Char) (h : dropTagBlock o cl l = some r) :
    r.length < l.length := by
  unfold dropTagBlock at h
  by_cases hp : (o.map Char.toLower).isPrefixOf (l.map Char.toLower)
  · rw [if_pos hp] at h
    by_cases hl : ((l.drop o.length).takeWhile (· ≠ '>')).length = (l.drop o.length).length
    · rw [if_pos hl] at h
      exact absurd h (by simp)
    · rw [if_neg hl] at h
      rcases hfi : findSubIdxCI cl ((l.drop o.length).drop
          (((l.drop o.length).takeWhile (· ≠ '>')).length + 1)) with _ | i
      · rw [hfi] at h
        exact absurd h (by simp)
      · rw [hfi] at h
        have hr : r = ((l.drop o.length).drop
            (((l.drop o.length).takeWhile (· ≠ '>')).length + 1)).drop (i + cl.length) := by
          exact (Option.some.injEq _ _ ▸ h).symm
        subst hr
        have h1 := length_takeWhile_le_local (· ≠ '>') (l.drop o.length)
        simp only [List.length_drop] at h1 hl ⊢
        omega
  · rw [if_neg hp] at h
    exact absurd h (by simp)

/-- Scanner for the script/style stripping regex: leftmost matches are
removed, scanning resumes after each removal. -/
def stripScriptStyle : List Char → List Char
  | [] => []
  | c :: cs =>
    match hs : dropTagBlock "<script".data "</script>".data (c :: cs) with
    | some rest => stripScriptStyle rest
    | none =>
      match ht : dropTagBlock "<style".data "</style>".data (c :: cs) with
      | some rest => stripScriptStyle rest
      | none => c :: stripScriptStyle cs
termination_by l => l.length
decreasing_by
  · exact dropTagBlock_length_lt _ _ _ _ hs
  · exact dropTagBlock_length_lt _ _ _ _ ht
  · simp

/-- re.sub(r"<[^>]+>", " ", _): a bracketed run with at least one
non-">" character becomes a space; an unmatched "<" stays. -/
def stripTagsBlunt : List Char → List Char
  | [] => []
  | c :: cs =>
    if c = '<' then
      let inner := cs.takeWhile (· ≠ '>')
      if inner.length ≠ 0 && inner.length ≠ cs.length then
        ' ' :: stripTagsBlunt (cs.drop (inner.length + 1))
      else c :: stripTagsBlunt cs
    else c :: stripTagsBlunt cs
termination_by l => l.length
decreasing_by
  all_goals simp only [List.length_drop, List.length_cons]
  all_goals omega

/-- EmailParser.html_to_text (src/email_parser.py lines 157-186):
unescape entities, run HTMLFilter, and fall back to blunt tag stripping
when the structured conversion yields fewer than 10 characters.
html.unescape is passed in as a parameter. -/
def html_to_text (unescape : String → String) (html_content : String) : String :=
  if html_content = "" then ""
  else
    let unescaped := unescape html_content
    let st := (tokenizeHtml unescaped.data).foldl handleEvent ⟨[], none⟩
    let text := filterGetText st
    if text = "" || text.length < 10 then
      pyStrip (pyCollapseWs (String.mk (stripTagsBlunt (stripScriptStyle unescaped.data))))
    else text

/-- re.search(r"<([^>]+)>", s): the first "<" followed by at least one
non-">" character and a closing ">"; returns the bracketed group. -/
def findAngleAddr : List Char → Option (List Char)
  | [] => none
  | c :: rest =>
    if c = '<' then
      let inner := rest.takeWhile (· ≠ '>')
      if inner.length ≠ 0 && inner.length ≠ rest.length then some inner
      else findAngleAddr rest
    else findAngleAddr rest

/-- Python str.split() with no separator: whitespace-delimited tokens,
empties discarded. -/
def pySplitWs : List Char → List (List Char)
  | [] => []
  | c :: cs =>
    if isPySpace c then pySplitWs cs
    else
      let tok := cs.takeWhile fun x => !isPySpace x
      (c :: tok) :: pySplitWs (cs.drop tok.length)
termination_by l => l.length
decreasing_by
  all_goals simp only [List.length_drop, List.length_cons]
  all_goals omega

/-- The from-header normalization of parse_email (src/email_parser.py
lines 70-77): angle-bracket address if present, else the last
whitespace-delimited token when the value contains "@", else the value
verbatim. -/
def normalizeFrom (v : String) : String :=
  match findAngleAddr v.data with
  | some addr => String.mk addr
  | none =>
    if pyHasChar v '@' then String.mk ((pySplitWs v.data).getLastD [])
    else v

/-- The header loop of parse_email (src/email_parser.py lines 67-81):
later headers overwrite earlier ones; header["name"] and (on a matching
name) header["value"] are unguarded dict lookups. -/
def headerFold : List Header → String × String × String →
    Except PyErr (String × String × String)
  | [], acc => Except.ok acc
  | h :: rest, (f, s, d) =>
    match h.name with
    | none => Except.error PyErr.keyError
    | some nm0 =>
      let nm := pyLower nm0
      if nm = "from" then
        match h.value with
        | none => Except.error PyErr.keyError
        | some v => headerFold rest (normalizeFrom v, s, d)
      else if nm = "subject" then
        match h.value with
        | none => Except.error PyErr.keyError
        | some v => headerFold rest (f, v, d)
      else if nm = "date" then
        match h.value with
        | none => Except.error PyErr.keyError
        | some v => headerFold rest (f, s, v)
      else headerFold rest (f, s, d)

/-- The plain/html selection policy of parse_email (src/email_parser.py
lines 87-91): empty plain text falls back to HTML-derived text; plain
text shorter than 50 characters with HTML present is replaced by the
HTML-derived text; otherwise the plain text is kept. -/
def chooseText (unescape : String → String) (plain html : String) : String :=
  if plain = "" && html ≠ "" then html_to_text unescape html
  else if plain ≠ "" && html ≠ "" && plain.length < 50 then html_to_text unescape html
  else plain

/-- The record dictionary assembled at src/email_parser.py lines 86-111
from the scanned headers, the extracted body pair and the message id:
text selection policy, whitespace cleaning, date normalization and the
truncations subject[:200], body[:5000] and html_body[:10000]. -/
def buildRecord (unescape : String → String) (fsd : String × String × String)
    (bodies : String × String) (mid : String) (include_html : Bool) : EmailData :=
  let chosen := chooseText unescape bodies.1 bodies.2
  let cleaned := if chosen ≠ "" then pyStrip (pyCollapseWs chosen) else ""
  { id := mid
    fromEmail := fsd.1
    subject := chopLeft 200 fsd.2.1
    date := parse_date fsd.2.2
    body := chopLeft 5000 cleaned
    html_body := if include_html && bodies.2 ≠ "" then
      some (chopLeft 10000 bodies.2) else none }

/-- EmailParser.parse_email (src/email_parser.py lines 44-112).  A falsy
message returns none; missing payload, headers, header fields or text
part bodies raise KeyError (uncaught dict indexing); otherwise the
normalized record is built. -/
def parse_email (decode unescape : String → String) (message : Option PyMessage)
    (include_html : Bool) : Except PyErr (Option EmailData) :=
  match message with
  | none => Except.ok none
  | some msg =>
    match msg.payload with
    | none => Except.error PyErr.keyError
    | some payload =>
      match payload.headers with
      | none => Except.error PyErr.keyError
      | some headers =>
        match headerFold headers ("", "", "") with
        | Except.error e => Except.error e
        | Except.ok fsd =>
          match get_email_bodies decode payload with
          | Except.error e => Except.error e
          | Except.ok bodies =>
            match msg.id with
            | none => Except.error PyErr.keyError
            | some mid => Except.ok (some (buildRecord unescape fsd bodies mid include_html))

/-! ## PipelineOrchestrator: GmailToSheets.process_emails, message loop
(src/main.py lines 279-335)

The two external services are embedded as functions: fetch models
GmailService.get_email_details (None on failure) and append models
SheetsService.append_data (False on failure).  The processed-ids set is a
list with set semantics; counters mirror successful_emails,
filtered_emails and the per-message skip log lines. -/

/-- The external collaborators and configuration of one run. -/
structure PipelineEnv where
  cfg : FilterConfig
  fetch : String → Option PyMessage
  decode : String → String
  unescape : String → String
  append : List String → Bool

/-- Mutable state of the processing loop. -/
structure RunState where
  processed : List String
  rows : List (List String)
  successful : Nat
  filtered : Nat
  skipped : Nat
deriving DecidableEq, Repr

/-- set.add on the processed-ids set. -/
def addId (l : List String) (i : String) : List String :=
  if l.contains i then l else i :: l

/-- The row appended for one email (src/main.py lines 314-320). -/
def emailRow (cfg : FilterConfig) (ed : EmailData) : List String :=
  [ed.date, ed.fromEmail, ed.subject, ed.body, extract_filter_matches cfg ed]

/-- The for-loop of process_emails (src/main.py lines 279-332): skip ids
already in the ledger; a fetch failure or a parse returning None moves to
the next message; an uncaught parse exception propagates out of
process_emails (there is no try/except in the loop), aborting the run
with the remaining messages unprocessed; a filtered-out or successfully
appended message is added to the ledger; a failed append is not. -/
def processLoop (env : PipelineEnv) : List String → RunState → RunState × Option PyErr
  | [], st => (st, none)
  | m :: rest, st =>
    if st.processed.contains m then
      processLoop env rest { st with skipped := st.skipped + 1 }
    else
      match env.fetch m with
      | none => processLoop env rest st
      | some msg =>
        match parse_email env.decode env.unescape (some msg) false with
        | Except.error e => (st, some e)
        | Except.ok none => processLoop env rest st
        | Except.ok (some ed) =>
          if !should_process_email env.cfg ed then
            processLoop env rest { st with
              processed := addId st.processed m
              filtered := st.filtered + 1 }
          else
            let row := emailRow env.cfg ed
            if env.append row then
              processLoop env rest { st with
                processed := addId st.processed m
                rows := st.rows ++ [row]
                successful := st.successful + 1 }
            else processLoop env rest st

/-- One orchestrator run over the unread-id list starting from a ledger. -/
def process_emails (env : PipelineEnv) (msgs ledger : List String) :
    RunState × Option PyErr :=
  processLoop env msgs (RunState.mk ledger [] 0 0 0)

/-- What processing one not-yet-ledgered message id does, as a pure
classification of the deterministic collaborators. -/
inductive MsgOutcome where
  | raised (e : PyErr)
  | noEffect
  | filteredOut (ed : EmailData)
  | appended (ed : EmailData)

/-- Classification of a message id against the environment, mirroring the
branch structure of the loop body. -/
def classifyMsg (env : PipelineEnv) (m : String) : MsgOutcome :=
  match env.fetch m with
  | none => MsgOutcome.noEffect
  | some msg =>
    match parse_email env.decode env.unescape (some msg) false with
    | Except.error e => MsgOutcome.raised e
    | Except.ok none => MsgOutcome.noEffect
    | Except.ok (some ed) =>
      if !should_process_email env.cfg ed then MsgOutcome.filteredOut ed
      else if env.append (emailRow env.cfg ed) then MsgOutcome.appended ed
      else MsgOutcome.noEffect

/-- Outcomes that add the id to the ledger: filtered out or appended. -/
def MsgOutcome.isTerminal : MsgOutcome → Bool
  | MsgOutcome.filteredOut _ => true
  | MsgOutcome.appended _ => true
  | _ => false

/-- Outcomes that raise. -/
def MsgOutcome.isRaised : MsgOutcome → Bool
  | MsgOutcome.raised _ => true
  | _ => false

/-- Outcomes counted by successful_emails. -/
def MsgOutcome.isAppended : MsgOutcome → Bool
  | MsgOutcome.appended _ => true
  | _ => false

/-- Outcomes counted by filtered_emails. -/
def MsgOutcome.isFilteredOut : MsgOutcome → Bool
  | MsgOutcome.filteredOut _ => true
  | _ => false

/-- The sink row a message id contributes, none when it is not appended. -/
def appendedRow (env : PipelineEnv) (m : String) : Option (List String) :=
  match classifyMsg env m with
  | MsgOutcome.appended ed => some (emailRow env.cfg ed)
  | _ => none

/-! ## Specification-side definitions and concrete fixtures -/

/-- The domain notion named by the specification: the substring after the
last "@" in the from field, the empty string when no "@" occurs.  Stated
independently of the split-based computation in the source, for
comparison. -/
def specDomainAfterLastAt (s : String) : String :=
  if s.data.contains '@' then
    String.mk ((s.data.reverse.takeWhile fun x => decide (x ≠ '@')).reverse)
  else ""

/-- Strict lexicographic order on calendar-date triples. -/
def specDateTripleLt (a b : Nat × Nat × Nat) : Bool :=
  a.1 < b.1 || (a.1 = b.1 && (a.2.1 < b.2.1 || (a.2.1 = b.2.1 && a.2.2 < b.2.2)))

/-- Modelled from the spec: the date axis it describes for
FilterConfig.should_process_email — minDate and maxDate are inclusive
calendar-date bounds compared against a record date that parses in the
canonical YYYY-MM-DD HH:MM:SS format, and a date that does not parse
passes the axis.  The source never reaches any comparison (see
dateAxisTry), so this is the comparison definition only stated here for
refutation. -/
def specDateAxisPasses (minD maxD : Option (Nat × Nat × Nat)) (date : String) : Bool :=
  match runFormat fmt3Matches date.data with
  | none => true
  | some dt =>
    (match minD with
     | none => true
     | some b => !specDateTripleLt (dt.year, dt.month, dt.day) b) &&
    (match maxD with
     | none => true
     | some b => !specDateTripleLt b (dt.year, dt.month, dt.day))

/-- The candidate replacement rule of get_email_bodies: the stored
candidate is replaced when it is empty or the new text is strictly
longer (src/email_parser.py lines 127 and 133). -/
def bestStep (acc t : String) : String :=
  if acc = "" || t.length > acc.length then t else acc

/-- Folding the replacement rule over a list of candidates. -/
def bestOf (acc : String) (l : List String) : String := l.foldl bestStep acc

/-- The selection the specification describes: the longest candidate
wins and equal lengths keep the earlier one. -/
def selectLongest (l : List String) : String :=
  l.foldl (fun acc t => if t.length > acc.length then t else acc) ""

mutual

/-- The decoded data of every leaf part of the given mime type, in the
preorder the source traversal visits them: a leaf of the requested type
contributes its decoded data (nothing when it has no data), multipart
containers recurse into their children, and leaves of any other mime
type contribute nothing. -/
def textLeaves (decode : String → String) (mime : String) : PPart → List String
  | PPart.mk mimeType body parts =>
    let m := pyLower (mimeType.getD "")
    if m = mime then
      match body with
      | some b =>
        match b.data with
        | some d => [decode d]
        | none => []
      | none => []
    else if isMultipartMime m then textLeavesList decode mime parts
    else []

/-- textLeaves over a sub-part list. -/
def textLeavesList (decode : String → String) (mime : String) : List PPart → List String
  | [] => []
  | p :: rest => textLeaves decode mime p ++ textLeavesList decode mime rest

end

/-- Does a parse rest begin with a digit (used to discharge backtracking
alternatives that can never complete a format match). -/
def restHeadDigit : List Char → Bool
  | c :: _ => c.isDigit
  | [] => false

/-- Bounded check that every occurrence of needle in hay starts at or
beyond the given index. -/
def occAllBeyond (needle hay : List Char) (bound : Nat) : Bool :=
  (List.range (hay.length + 1)).all fun p => !occursAt needle hay p || decide (bound ≤ p)

/-- Fixture: a 204-character subject whose only keyword occurrence
starts at index 200. -/
def subjC10 : String := String.mk (List.replicate 200 'a' ++ ['z', 'k', 'e', 'y'])

/-- Fixture: a payload carrying only the long subject header. -/
def payloadC10 : Payload :=
  Payload.mk (some [Header.mk (some "Subject") (some subjC10)]) (some "text/plain") none none

/-- Fixture: the message wrapping payloadC10. -/
def msgC10 : PyMessage := PyMessage.mk (some "m10") (some payloadC10)

/-- Fixture: filtering enabled with the keyword hidden beyond the
truncation point. -/
def cfgC10 : FilterConfig := FilterConfig.mk true ["zkey"] [] none none

/-- Fixture: the record parse_email produces for msgC10 (subject cut to
200 characters). -/
def edC10 : EmailData :=
  EmailData.mk "m10" "" (String.mk (List.replicate 200 'a')) "" "" none

/-- Fixture: a message with id and payload present but whose single
text/plain part lacks the "body" key — a malformed individual part. -/
def badPartMsg : PyMessage :=
  PyMessage.mk (some "bad") (some (Payload.mk (some []) (some "multipart/mixed") none
    (some [PPart.mk (some "text/plain") none []])))

/-- Fixture: a well-formed plain-text message. -/
def goodMsg : PyMessage :=
  PyMessage.mk (some "good") (some (Payload.mk
    (some [Header.mk (some "From") (some "Jane <jane@example.com>")])
    (some "text/plain") (some (PBody.mk (some "content here"))) none))

/-- Fixture: pipeline environment delivering badPartMsg and goodMsg with
filtering disabled and an always-successful sink. -/
def envC3 : PipelineEnv :=
  PipelineEnv.mk (FilterConfig.mk false [] [] none none)
    (fun m => if m = "bad" then some badPartMsg
      else if m = "good" then some goodMsg else none)
    (fun s => s) (fun s => s) (fun _ => true)

/-- Fixture: the row the good message appends on its own. -/
def goodRow : List String :=
  ["", "jane@example.com", "", "content here", "No filter match"]

/-- Fixture: a headers-only message whose subject contains the keyword. -/
def msgC4a : PyMessage :=
  PyMessage.mk (some "a") (some (Payload.mk
    (some [Header.mk (some "Subject") (some "x1")]) (some "text/plain") none none))

/-- Fixture: a headers-only message whose subject misses the keyword. -/
def msgC4b : PyMessage :=
  PyMessage.mk (some "b") (some (Payload.mk
    (some [Header.mk (some "Subject") (some "zzz")]) (some "text/plain") none none))

/-- Fixture: keyword filtering on, two fetchable messages, a reliable
sink; the id "c" fails to fetch. -/
def envC4 : PipelineEnv :=
  PipelineEnv.mk (FilterConfig.mk true ["x"] [] none none)
    (fun m => if m = "a" then some msgC4a else if m = "b" then some msgC4b else none)
    (fun s => s) (fun s => s) (fun _ => true)

/-- Fixture: filtering enabled with one allowed sender domain only. -/
def cfgC1 : FilterConfig := FilterConfig.mk true [] ["example.com"] none none

/-- Fixture: a record whose from field contains no "@". -/
def recC1 : EmailData :=
  EmailData.mk "id1" "alice" "Hi" "2023-01-02 10:00:00" "b" none

/-- Fixture: filtering enabled with a matching sender domain, different
letter case. -/
def cfgC1w : FilterConfig := FilterConfig.mk true [] ["Example.COM"] none none

/-- Fixture: a record from jane@example.com. -/
def recC1w : EmailData :=
  EmailData.mk "id1w" "jane@example.com" "Hi" "2023-01-02 10:00:00" "b" none

/-- Fixture: a multipart tree with two text/plain leaves of different
lengths, one text/html leaf, an ignored image leaf and a nested
multipart container. -/
def partsC7 : List PPart :=
  [PPart.mk (some "text/plain") (some (PBody.mk (some "hi"))) [],
   PPart.mk (some "text/html") (some (PBody.mk (some "<b>x</b>"))) [],
   PPart.mk (some "image/png") (some (PBody.mk (some "PNG"))) [],
   PPart.mk (some "multipart/alternative") none
     [PPart.mk (some "text/plain") (some (PBody.mk (some "hello there"))) []]]

/-- Fixture: a multipart payload over partsC7. -/
def payloadC7 : Payload := Payload.mk (some []) (some "multipart/mixed") none (some partsC7)

/-- Fixture: the html example document of the specification. -/
def exHtml : String := "<p>Hello <b>world</b></p>"

/-- Fixture: a single-part message whose only part is HTML. -/
def payloadC8 : Payload :=
  Payload.mk (some []) (some "text/html") (some (PBody.mk (some "B64DATA"))) none

/-- Fixture: the message wrapping payloadC8. -/
def msgC8 : PyMessage := PyMessage.mk (some "m8") (some payloadC8)

/-- Fixture: a decoded plain-text body of 5001 spaces followed by two
letters: longer than 5000 characters, but nearly all whitespace. -/
def bigBody : String := String.mk (List.replicate 5001 ' ' ++ ['h', 'i'])

/-- Fixture: a single-part plain-text payload. -/
def payloadC9 : Payload :=
  Payload.mk (some []) (some "text/plain") (some (PBody.mk (some "D9"))) none

/-- Fixture: the message wrapping payloadC9. -/
def msgC9 : PyMessage := PyMessage.mk (some "m9") (some payloadC9)

/-- Fixture: filtering enabled with only a minimum date configured. -/
def cfgC2 : FilterConfig := FilterConfig.mk true [] [] (some "2023-01-01") none

/-- Fixture: a record dated three years before the configured minimum. -/
def recC2 : EmailData :=
  EmailData.mk "id2" "bob@example.com" "Hello" "2020-01-01 00:00:00" "b" none

/-! ## Shared lemmas -/

theorem splitOnChar_ne_nil (sep : Char) (l : List Char) : splitOnChar sep l ≠ [] := by
  cases l with
  | nil => simp [splitOnChar]
  | cons c cs =>
    simp only [splitOnChar]
    by_cases h : c = sep
    · simp [h]
    · simp only [if_neg h]
      rcases splitOnChar sep cs with _ | ⟨f, r⟩ <;> simp

theorem splitOnChar_of_not_mem (sep : Char) :
    ∀ l : List Char, sep ∉ l → splitOnChar sep l = [l] := by
  intro l
  induction l with
  | nil => intro _; rfl
  | cons c cs ih =>
    intro h
    have hc : ¬c = sep := fun he => h (he ▸ List.mem_cons_self c cs)
    have hcs : sep ∉ cs := fun hm => h (List.mem_cons_of_mem c hm)
    simp only [splitOnChar, if_neg hc, ih hcs]

theorem mem_of_splitOnChar_two (sep : Char) (l f r1 : List Char) (rs : List (List Char))
    (h : splitOnChar sep l = f :: r1 :: rs) : sep ∈ l := by
  by_contra hm
  rw [splitOnChar_of_not_mem sep l hm] at h
  have := congrArg List.length h
  simp at this

theorem takeWhile_append_single {α : Type} (p : α → Bool) (c : α) (hc : p c = false) :
    ∀ xs : List α, ((xs ++ [c]).takeWhile p) = xs.takeWhile p := by
  intro xs
  induction xs with
  | nil => simp [List.takeWhile, hc]
  | cons x xs ih =>
    simp only [List.cons_append, List.takeWhile]
    cases p x <;> simp [ih]

theorem splitOnChar_len_two_of_mem (sep : Char) :
    ∀ l : List Char, sep ∈ l → 2 ≤ (splitOnChar sep l).length := by
  intro l
  induction l with
  | nil => intro h; simp at h
  | cons c cs ih =>
    intro h
    by_cases hc : c = sep
    · simp only [splitOnChar, if_pos hc, List.length_cons]
      have h1 : 0 < (splitOnChar sep cs).length :=
        List.length_pos.mpr (splitOnChar_ne_nil sep cs)
      omega
    · have hm : sep ∈ cs := by
        rcases List.mem_cons.mp h with he | hm
        · exact absurd he.symm hc
        · exact hm
      simp only [splitOnChar, if_neg hc]
      rcases hsp : splitOnChar sep cs with _ | ⟨f, rest⟩
      · exact absurd hsp (splitOnChar_ne_nil sep cs)
      · have := ih hm
        rw [hsp] at this
        simpa using this

theorem takeWhile_length_lt_of_mem {α : Type} (p : α → Bool) (a : α) (ha : p a = false) :
    ∀ xs : List α, a ∈ xs → (xs.takeWhile p).length < xs.length := by
  intro xs
  induction xs with
  | nil => intro h; simp at h
  | cons x xs ih =>
    intro h
    by_cases hx : p x = true
    · have hax : a ∈ xs := by
        rcases List.mem_cons.mp h with he | hm
        · subst he; rw [hx] at ha; simp at ha
        · exact hm
      simp only [List.takeWhile, hx, List.length_cons]
      exact Nat.succ_lt_succ (ih hax)
    · simp only [List.takeWhile, Bool.eq_false_iff.mpr hx]
      simp

theorem splitOnChar_getLastD (sep : Char) :
    ∀ l : List Char, (splitOnChar sep l).getLastD [] =
      (l.reverse.takeWhile fun x => decide (x ≠ sep)).reverse := by
  intro l
  induction l with
  | nil => simp [splitOnChar]
  | cons c cs ih =>
    by_cases hc : c = sep
    · have hsplit : splitOnChar sep (c :: cs) = [] :: splitOnChar sep cs := by
        simp only [splitOnChar, if_pos hc]
      rw [hsplit, List.getLastD_cons, ih, List.reverse_cons, hc,
        takeWhile_append_single _ sep (by simp)]
    · simp only [splitOnChar, if_neg hc, List.reverse_cons]
      rcases hsp : splitOnChar sep cs with _ | ⟨f, rest⟩
      · exact absurd hsp (splitOnChar_ne_nil sep cs)
      · rw [hsp] at ih
        cases rest with
        | nil =>
          have hnm : sep ∉ cs := by
            intro hm
            have := splitOnChar_len_two_of_mem sep cs hm
            rw [hsp] at this
            simp at this
          have hf : f = cs := by
            have h2 := splitOnChar_of_not_mem sep cs hnm
            rw [hsp] at h2
            injection h2
          subst hf
          have hall : List.takeWhile (fun x => decide (x ≠ sep)) f.reverse = f.reverse :=
            List.takeWhile_eq_self_iff.mpr (fun x hx => by
              simp only [ne_eq, decide_eq_true_eq]
              intro he
              exact hnm (he ▸ List.mem_reverse.mp hx))
          rw [List.takeWhile_append, if_pos (by rw [hall])]
          have ht : List.takeWhile (fun x => decide (x ≠ sep)) [c] = [c] := by
            simp [List.takeWhile, hc]
          rw [ht]
          simp [List.getLastD]
        | cons r1 rs =>
          have hm : sep ∈ cs := mem_of_splitOnChar_two sep cs f r1 rs hsp
          rw [List.takeWhile_append, if_neg (by
            have := takeWhile_length_lt_of_mem (fun x => decide (x ≠ sep)) sep
              (by simp) cs.reverse (List.mem_reverse.mpr hm)
            omega)]
          simp only [List.getLastD_cons] at ih ⊢
          exact ih

theorem domainOf_eq_spec (s : String) : domainOf s = specDomainAfterLastAt s := by
  unfold domainOf specDomainAfterLastAt pyHasChar
  by_cases h : s.data.contains '@' = true
  · rw [if_pos h, if_pos h, splitOnChar_getLastD]
  · rw [if_neg h, if_neg h]

theorem digitVal_digitChar (x : Nat) (hx : x < 10) : digitVal (Nat.digitChar x) = x := by
  interval_cases x <;> decide

theorem digitChar_isDigit (x : Nat) (hx : x < 10) : (Nat.digitChar x).isDigit = true := by
  interval_cases x <;> decide

theorem digitChar_mod_isDigit (x : Nat) : (Nat.digitChar (x % 10)).isDigit = true :=
  digitChar_isDigit (x % 10) (Nat.mod_lt x (by norm_num))

theorem isPySpace_eq_false_of_isDigit (c : Char) (h : c.isDigit = true) :
    isPySpace c = false := by
  by_contra hs
  simp only [Bool.not_eq_false, isPySpace, Bool.or_eq_true, decide_eq_true_eq] at hs
  rcases hs with ((((h1 | h1) | h1) | h1) | h1) | h1 <;>
    · subst h1
      exact absurd h (by decide)

theorem wsCands_nil_of_not_space (c : Char) (r : List Char) (h : isPySpace c = false) :
    wsCands (c :: r) = [] := by
  unfold wsCands
  simp [List.takeWhile, h]

theorem toLower_of_isDigit (c : Char) (h : c.isDigit = true) : Char.toLower c = c := by
  unfold Char.toLower
  simp only [Char.isDigit] at h
  rw [Bool.and_eq_true] at h
  obtain ⟨h1, h2⟩ := h
  rw [decide_eq_true_eq] at h1 h2
  show (if c.toNat ≥ 65 ∧ c.toNat ≤ 90 then Char.ofNat (c.toNat + 32) else c) = c
  rw [if_neg]
  intro hcon
  obtain ⟨ha, _⟩ := hcon
  have h9 : c.val.toNat ≤ 57 := by
    have := UInt32.le_def.mp h2
    simpa using this
  have he : c.toNat = c.val.toNat := rfl
  omega

theorem yearCands_pad4 (y : Nat) (hy : y ≤ 9999) (r : List Char) :
    yearCands (pad4 y ++ r) = [(y, r)] := by
  have e1 := digitVal_digitChar (y / 1000 % 10) (Nat.mod_lt _ (by norm_num))
  have e2 := digitVal_digitChar (y / 100 % 10) (Nat.mod_lt _ (by norm_num))
  have e3 := digitVal_digitChar (y / 10 % 10) (Nat.mod_lt _ (by norm_num))
  have e4 := digitVal_digitChar (y % 10) (Nat.mod_lt _ (by norm_num))
  have harith : 1000 * (y / 1000 % 10) + 100 * (y / 100 % 10) + 10 * (y / 10 % 10) +
      y % 10 = y := by omega
  simp [pad4, yearCands, digitChar_mod_isDigit, e1, e2, e3, e4, harith]

theorem monthCands_pad2 (m : Nat) (hlo : 1 ≤ m) (hhi : m ≤ 12) (r : List Char) :
    ∃ t, monthCands (pad2 m ++ r) = (m, r) :: t := by
  interval_cases m <;> exact ⟨_, rfl⟩

theorem dayCands_pad2 (d : Nat) (hlo : 1 ≤ d) (hhi : d ≤ 31) (r : List Char) :
    ∃ t, dayCands (pad2 d ++ r) = (d, r) :: t := by
  interval_cases d <;> exact ⟨_, rfl⟩

theorem hourCands_pad2 (v : Nat) (hhi : v ≤ 23) (r : List Char) :
    ∃ t, hourCands (pad2 v ++ r) = (v, r) :: t := by
  interval_cases v <;> exact ⟨_, rfl⟩

theorem minuteCands_pad2 (v : Nat) (hhi : v ≤ 59) (r : List Char) :
    ∃ t, minuteCands (pad2 v ++ r) = (v, r) :: t := by
  interval_cases v <;> exact ⟨_, rfl⟩

theorem secondCands_pad2 (v : Nat) (hhi : v ≤ 59) (r : List Char) :
    ∃ t, secondCands (pad2 v ++ r) = (v, r) :: t := by
  interval_cases v <;> exact ⟨_, rfl⟩

theorem litCands_cons (c : Char) (r : List Char) : litCands c (c :: r) = [((), r)] := by
  simp [litCands]

theorem wsCands_single_space (c : Char) (hc : isPySpace c = false) (r : List Char) :
    wsCands (' ' :: c :: r) = [((), c :: r)] := by
  unfold wsCands
  have h1 : isPySpace ' ' = true := by decide
  have ht : List.takeWhile isPySpace (' ' :: c :: r) = [' '] := by
    rw [List.takeWhile_cons, h1, List.takeWhile_cons, hc]
    rfl
  rw [ht]
  rfl

theorem exists_cons_flatMap {α β : Type} (f : α → List β) (a : α) (tl : List α) (b : β)
    (h : ∃ t, f a = b :: t) : ∃ t, (a :: tl).flatMap f = b :: t := by
  obtain ⟨t, ht⟩ := h
  exact ⟨t ++ tl.flatMap f, by simp [ht]⟩

theorem flatMap_eq_nil_of_forall {α β : Type} (f : α → List β) (l : List α)
    (h : ∀ x ∈ l, f x = []) : l.flatMap f = [] := by
  induction l with
  | nil => rfl
  | cons a tl ih =>
    rw [List.flatMap_cons, h a (List.mem_cons_self a tl),
      ih (fun x hx => h x (List.mem_cons_of_mem a hx))]
    rfl

theorem weekdayCands_nil (c : Char) (rest : List Char) (hc : c.isDigit = true) :
    weekdayCands (c :: rest) = [] := by
  have hlow : Char.toLower c = c := toLower_of_isDigit c hc
  have hne : ∀ w : Char, w.isDigit = false → ((w == c) = false) := by
    intro w hw
    rw [beq_eq_false_iff_ne]
    intro he
    rw [he] at hw
    simp [hc] at hw
  simp [weekdayCands, nameCands, List.isPrefixOf, hlow,
    hne 'm' (by decide), hne 't' (by decide), hne 'w' (by decide),
    hne 'f' (by decide), hne 's' (by decide)]

theorem fmt1Matches_nil (c : Char) (rest : List Char) (hc : c.isDigit = true) :
    fmt1Matches (c :: rest) = [] := by
  unfold fmt1Matches
  rw [weekdayCands_nil c rest hc]
  rfl

theorem all_ite_singleton {α : Type} (P : Prop) [Decidable P] (x : α) (f : α → Bool)
    (hf : f x = true) : (if P then [x] else []).all f = true := by
  split <;> simp [hf]

theorem dayCands_digits_rest (d1 d2 d3 : Char) (tl : List Char)
    (h1 : d1.isDigit = true) (h2 : d2.isDigit = true) (h3 : d3.isDigit = true) :
    ∀ pr ∈ dayCands (d1 :: d2 :: d3 :: tl), restHeadDigit pr.2 = true := by
  have hall : (dayCands (d1 :: d2 :: d3 :: tl)).all (fun pr => restHeadDigit pr.2) = true := by
    simp only [dayCands]
    rw [List.all_append, List.all_append, List.all_append, List.all_append]
    rw [all_ite_singleton _ _ _ (by simp [restHeadDigit, h3]),
      all_ite_singleton _ _ _ (by simp [restHeadDigit, h3]),
      all_ite_singleton _ _ _ (by simp [restHeadDigit, h3]),
      all_ite_singleton _ _ _ (by simp [restHeadDigit, h2]),
      all_ite_singleton _ _ _ (by simp [restHeadDigit, h3])]
    rfl
  exact fun pr hpr => List.all_eq_true.mp hall pr hpr

theorem fmt2Matches_nil (d1 d2 d3 : Char) (tl : List Char)
    (h1 : d1.isDigit = true) (h2 : d2.isDigit = true) (h3 : d3.isDigit = true) :
    fmt2Matches (d1 :: d2 :: d3 :: tl) = [] := by
  unfold fmt2Matches
  apply flatMap_eq_nil_of_forall
  intro pd hpd
  obtain ⟨v, rest2⟩ := pd
  have hr := dayCands_digits_rest d1 d2 d3 tl h1 h2 h3 (v, rest2) hpd
  rcases rest2 with _ | ⟨e, rr⟩
  · simp [restHeadDigit] at hr
  · simp only [restHeadDigit] at hr
    simp [wsCands_nil_of_not_space e rr (isPySpace_eq_false_of_isDigit e hr)]

theorem daysInMonth_le (y m : Nat) : daysInMonth y m ≤ 31 := by
  unfold daysInMonth
  split_ifs <;> omega

theorem wsCands_space_pad2 (v : Nat) (r : List Char) :
    wsCands (' ' :: (pad2 v ++ r)) = [((), pad2 v ++ r)] := by
  show wsCands (' ' :: Nat.digitChar (v / 10 % 10) :: (Nat.digitChar (v % 10) :: r)) =
    [((), Nat.digitChar (v / 10 % 10) :: (Nat.digitChar (v % 10) :: r))]
  exact wsCands_single_space _ (isPySpace_eq_false_of_isDigit _ (digitChar_mod_isDigit _)) _

theorem fmt3Matches_canonical (dt : PyDateTime) (hv : validDate dt = true) :
    ∃ t, fmt3Matches (strftimeCanonical dt).data = (dt, []) :: t := by
  obtain ⟨y, mo, d, h, mi, s⟩ := dt
  simp only [validDate, Bool.and_eq_true, decide_eq_true_eq] at hv
  obtain ⟨⟨⟨⟨⟨⟨⟨⟨hy1, hy2⟩, hm1⟩, hm2⟩, hd1⟩, hd2⟩, hh⟩, hmi⟩, hs⟩ := hv
  have hd31 : d ≤ 31 := le_trans hd2 (daysInMonth_le y mo)
  show ∃ t, fmt3Matches (pad4 y ++ '-' :: (pad2 mo ++ '-' :: (pad2 d ++ ' ' ::
    (pad2 h ++ ':' :: (pad2 mi ++ ':' :: pad2 s))))) =
    (PyDateTime.mk y mo d h mi s, []) :: t
  unfold fmt3Matches
  rw [yearCands_pad4 y hy2]
  apply exists_cons_flatMap
  simp only [litCands_cons]
  apply exists_cons_flatMap
  obtain ⟨tM, hM⟩ := monthCands_pad2 mo hm1 hm2
    ('-' :: (pad2 d ++ ' ' :: (pad2 h ++ ':' :: (pad2 mi ++ ':' :: pad2 s))))
  simp only [hM]
  apply exists_cons_flatMap
  simp only [litCands_cons]
  apply exists_cons_flatMap
  obtain ⟨tD, hD⟩ := dayCands_pad2 d hd1 hd31
    (' ' :: (pad2 h ++ ':' :: (pad2 mi ++ ':' :: pad2 s)))
  simp only [hD]
  apply exists_cons_flatMap
  simp only [wsCands_space_pad2]
  apply exists_cons_flatMap
  obtain ⟨tH, hH⟩ := hourCands_pad2 h hh (':' :: (pad2 mi ++ ':' :: pad2 s))
  simp only [hH]
  apply exists_cons_flatMap
  simp only [litCands_cons]
  apply exists_cons_flatMap
  obtain ⟨tMi, hMi⟩ := minuteCands_pad2 mi hmi (':' :: pad2 s)
  simp only [hMi]
  apply exists_cons_flatMap
  simp only [litCands_cons]
  apply exists_cons_flatMap
  obtain ⟨tS, hS⟩ := secondCands_pad2 s hs []
  rw [List.append_nil] at hS
  simp only [hS]
  exact ⟨tS.map _, rfl⟩

theorem runFormat_none_of_nil (fmt : List Char → Cands PyDateTime) (l : List Char)
    (h : fmt l = []) : runFormat fmt l = none := by
  unfold runFormat
  rw [h]
  rfl

theorem runFormat_fmt3_canonical (dt : PyDateTime) (hv : validDate dt = true) :
    runFormat fmt3Matches (strftimeCanonical dt).data = some dt := by
  obtain ⟨t, ht⟩ := fmt3Matches_canonical dt hv
  unfold runFormat
  rw [ht]
  simp [List.find?_cons, List.isEmpty, hv]

theorem strftime_mem_chars (dt : PyDateTime) :
    ∀ c ∈ (strftimeCanonical dt).data, c.isDigit = true ∨ c = '-' ∨ c = ' ' ∨ c = ':' := by
  intro c hc
  obtain ⟨y, mo, d, h, mi, s⟩ := dt
  simp only [strftimeCanonical, pad4, pad2, List.mem_append, List.mem_cons,
    List.not_mem_nil, or_false, or_assoc] at hc
  rcases hc with hc | hc | hc | hc | hc | hc | hc | hc | hc | hc | hc | hc | hc |
      hc | hc | hc | hc | hc | hc <;> subst hc <;>
    first
      | exact Or.inl (digitChar_mod_isDigit _)
      | exact Or.inr (Or.inl rfl)
      | exact Or.inr (Or.inr (Or.inl rfl))
      | exact Or.inr (Or.inr (Or.inr rfl))

theorem takeBeforeSub_of_second_not_mem (a b : Char) (tail : List Char) :
    ∀ l : List Char, b ∉ l → takeBeforeSub (a :: b :: tail) l = l := by
  intro l
  induction l with
  | nil => intro _; rfl
  | cons c cs ih =>
    intro hmem
    have hb2 : (a :: b :: tail).isPrefixOf (c :: cs) = false := by
      rcases cs with _ | ⟨c2, cs2⟩
      · simp [List.isPrefixOf]
      · simp only [List.isPrefixOf, Bool.and_eq_false_iff]
        by_cases hbc : b = c2
        · exact absurd (List.mem_cons_of_mem c (hbc ▸ List.mem_cons_self c2 cs2)) hmem
        · right
          left
          simp [hbc]
    unfold takeBeforeSub
    rw [hb2]
    simp only [Bool.false_eq_true, if_false]
    rw [ih (fun hm => hmem (List.mem_cons_of_mem c hm))]

theorem strftime_not_mem (dt : PyDateTime) (x : Char) (hx1 : x.isDigit = false)
    (hx2 : x ≠ '-') (hx3 : x ≠ ' ') (hx4 : x ≠ ':') :
    x ∉ (strftimeCanonical dt).data := by
  intro hm
  rcases strftime_mem_chars dt x hm with h | h | h | h
  · rw [hx1] at h
    exact Bool.false_ne_true h
  · exact hx2 h
  · exact hx3 h
  · exact hx4 h

theorem cleanDateString_strftime (dt : PyDateTime) :
    cleanDateString (strftimeCanonical dt) = strftimeCanonical dt := by
  unfold cleanDateString
  rw [show (" (".data : List Char) = ' ' :: '(' :: [] from rfl,
    show (" GMT".data : List Char) = ' ' :: 'G' :: ['M', 'T'] from rfl]
  rw [takeBeforeSub_of_second_not_mem ' ' '(' [] _
    (strftime_not_mem dt '(' (by decide) (by decide) (by decide) (by decide))]
  rw [takeBeforeSub_of_second_not_mem ' ' 'G' ['M', 'T'] _
    (strftime_not_mem dt 'G' (by decide) (by decide) (by decide) (by decide))]

theorem strftime_ne_empty (dt : PyDateTime) : strftimeCanonical dt ≠ "" := by
  intro h
  have hd := congrArg String.data h
  simp [strftimeCanonical, pad4] at hd

theorem isMultipartMime_plain : isMultipartMime "text/plain" = false := by decide

theorem isMultipartMime_html : isMultipartMime "text/html" = false := by decide

theorem bestStep_eq_select_step (acc t : String) :
    bestStep acc t = if t.length > acc.length then t else acc := by
  unfold bestStep
  by_cases ha : acc = ""
  · subst ha
    by_cases ht : t = ""
    · subst ht
      simp
    · have hl : 0 < t.length := by
        rcases t with ⟨td⟩
        rcases td with _ | ⟨c, cs⟩
        · exact absurd rfl ht
        · simp [String.length]
      simp [hl]
  · simp [ha]

theorem bestOf_empty_eq_selectLongest (l : List String) : bestOf "" l = selectLongest l := by
  unfold bestOf selectLongest
  rw [funext fun acc => funext fun t => bestStep_eq_select_step acc t]

mutual

theorem extract_part_spec (decode : String → String) (st : String × String) (p : PPart)
    (st2 : String × String) (h : extract_from_part decode st p = Except.ok st2) :
    st2.1 = bestOf st.1 (textLeaves decode "text/plain" p) ∧
    st2.2 = bestOf st.2 (textLeaves decode "text/html" p) := by
  obtain ⟨mt, b, parts⟩ := p
  unfold extract_from_part at h
  by_cases hp : pyLower (mt.getD "") = "text/plain"
  · rw [if_pos hp] at h
    rcases b with _ | bb
    · exact absurd h (by simp)
    · rcases bb with ⟨bd⟩
      rcases bd with _ | d
      · simp only [Except.ok.injEq] at h
        subst h
        simp [textLeaves, hp, isMultipartMime_plain, isMultipartMime_html, bestOf, bestStep]
      · simp only at h
        split_ifs at h with hcond <;> simp only [Except.ok.injEq] at h <;> subst h
        · constructor
          · simp [textLeaves, hp, isMultipartMime_plain, isMultipartMime_html, bestOf, bestStep, hcond]
          · simp [textLeaves, hp, isMultipartMime_plain, isMultipartMime_html,
              show ¬(pyLower (mt.getD "") = "text/html") by rw [hp]; decide, bestOf]
        · constructor
          · simp [textLeaves, hp, isMultipartMime_plain, isMultipartMime_html, bestOf, bestStep, hcond]
          · simp [textLeaves, hp, isMultipartMime_plain, isMultipartMime_html,
              show ¬(pyLower (mt.getD "") = "text/html") by rw [hp]; decide, bestOf]
  · rw [if_neg hp] at h
    by_cases hh : pyLower (mt.getD "") = "text/html"
    · rw [if_pos hh] at h
      rcases b with _ | bb
      · exact absurd h (by simp)
      · rcases bb with ⟨bd⟩
        rcases bd with _ | d
        · simp only [Except.ok.injEq] at h
          subst h
          simp [textLeaves, hp, hh, isMultipartMime_plain, isMultipartMime_html, bestOf, bestStep]
        · simp only at h
          split_ifs at h with hcond <;> simp only [Except.ok.injEq] at h <;> subst h
          · constructor
            · simp [textLeaves, hp, hh, isMultipartMime_plain, isMultipartMime_html, bestOf]
            · simp [textLeaves, hp, hh, isMultipartMime_plain, isMultipartMime_html, bestOf, bestStep, hcond]
          · constructor
            · simp [textLeaves, hp, hh, isMultipartMime_plain, isMultipartMime_html, bestOf]
            · simp [textLeaves, hp, hh, isMultipartMime_plain, isMultipartMime_html, bestOf, bestStep, hcond]
    · rw [if_neg hh] at h
      by_cases hm : isMultipartMime (pyLower (mt.getD "")) = true
      · rw [if_pos hm] at h
        have := extract_parts_spec decode st parts st2 h
        simpa [textLeaves, hp, hh, hm] using this
      · rw [if_neg hm] at h
        simp only [Except.ok.injEq] at h
        subst h
        simp [textLeaves, hp, hh, hm, bestOf]

theorem extract_parts_spec (decode : String → String) (st : String × String)
    (ps : List PPart) (st2 : String × String)
    (h : extract_from_parts decode st ps = Except.ok st2) :
    st2.1 = bestOf st.1 (textLeavesList decode "text/plain" ps) ∧
    st2.2 = bestOf st.2 (textLeavesList decode "text/html" ps) := by
  match ps with
  | [] =>
    unfold extract_from_parts at h
    simp only [Except.ok.injEq] at h
    subst h
    simp [textLeavesList, bestOf]
  | p :: rest =>
    unfold extract_from_parts at h
    rcases hx : extract_from_part decode st p with e | stm
    · rw [hx] at h
      exact absurd h (by simp)
    · rw [hx] at h
      obtain ⟨h1a, h1b⟩ := extract_part_spec decode st p stm hx
      obtain ⟨h2a, h2b⟩ := extract_parts_spec decode stm rest st2 h
      constructor
      · rw [h2a, h1a]
        simp [textLeavesList, bestOf, List.foldl_append]
      · rw [h2b, h1b]
        simp [textLeavesList, bestOf, List.foldl_append]

end

theorem parse_email_ok_elim (decode unescape : String → String) (msg : PyMessage)
    (ed : EmailData) (ih : Bool)
    (h : parse_email decode unescape (some msg) ih = Except.ok (some ed)) :
    ∃ payload headers fsd bodies mid,
      msg.payload = some payload ∧ payload.headers = some headers ∧
      headerFold headers ("", "", "") = Except.ok fsd ∧
      get_email_bodies decode payload = Except.ok bodies ∧
      msg.id = some mid ∧ ed = buildRecord unescape fsd bodies mid ih := by
  simp only [parse_email] at h
  split at h
  · exact absurd h (by simp)
  · rename_i payload hpay
    split at h
    · exact absurd h (by simp)
    · rename_i headers hhdr
      split at h
      · exact absurd h (by simp)
      · rename_i fsd hfold
        split at h
        · exact absurd h (by simp)
        · rename_i bodies hbod
          split at h
          · exact absurd h (by simp)
          · rename_i mid hid
            simp only [Except.ok.injEq, Option.some.injEq] at h
            exact ⟨payload, headers, fsd, bodies, mid, hpay, hhdr, hfold, hbod, hid, h.symm⟩

theorem buildRecord_body (unescape : String → String) (fsd : String × String × String)
    (bodies : String × String) (mid : String) (ih : Bool) :
    (buildRecord unescape fsd bodies mid ih).body =
      chopLeft 5000 (pyStrip (pyCollapseWs (chooseText unescape bodies.1 bodies.2))) := by
  unfold buildRecord
  by_cases hch : chooseText unescape bodies.1 bodies.2 = ""
  · simp only [hch]
    rfl
  · simp only [if_pos hch]

theorem buildRecord_subject (unescape : String → String) (fsd : String × String × String)
    (bodies : String × String) (mid : String) (ih : Bool) :
    (buildRecord unescape fsd bodies mid ih).subject = chopLeft 200 fsd.2.1 := rfl

theorem chopLeft_length_le (n : Nat) (s : String) : (chopLeft n s).length ≤ n := by
  show (s.data.take n).length ≤ n
  rw [List.length_take]
  exact Nat.min_le_left n s.data.length

theorem chopLeft_length_of_le (n : Nat) (s : String) (h : n ≤ s.length) :
    (chopLeft n s).length = n := by
  show (s.data.take n).length = n
  rw [List.length_take]
  exact Nat.min_eq_left h

theorem collapseWsSkip_replicate (l : List Char) :
    ∀ n, collapseWsSkip (List.replicate n ' ' ++ l) = collapseWsSkip l := by
  intro n
  induction n with
  | zero => simp
  | succ n ih =>
    rw [List.replicate_succ, List.cons_append]
    rw [show collapseWsSkip (' ' :: (List.replicate n ' ' ++ l)) =
      collapseWsSkip (List.replicate n ' ' ++ l) from rfl]
    exact ih

theorem pyCollapseWs_bigBody : pyCollapseWs bigBody = " hi" := by
  show String.mk (collapseWsChars (List.replicate 5001 ' ' ++ ['h', 'i'])) = " hi"
  rw [show (5001 : Nat) = 5000 + 1 from rfl, List.replicate_succ, List.cons_append]
  rw [show collapseWsChars (' ' :: (List.replicate 5000 ' ' ++ ['h', 'i'])) =
    ' ' :: collapseWsSkip (List.replicate 5000 ' ' ++ ['h', 'i']) from rfl]
  rw [collapseWsSkip_replicate]
  rfl

theorem bigBody_length : bigBody.length = 5003 := by
  rw [show bigBody.length = (List.replicate 5001 ' ' ++ ['h', 'i']).length from rfl]
  rw [List.length_append, List.length_replicate]
  rfl

theorem bigBody_ne_empty : bigBody ≠ "" := by
  intro h
  have hl := congrArg String.length h
  rw [bigBody_length, show ("" : String).length = 0 from rfl] at hl
  omega

theorem parse_email_bigBody :
    parse_email (fun _ => bigBody) (fun s => s) (some msgC9) false =
      Except.ok (some (EmailData.mk "m9" "" "" "" "hi" none)) := by
  have h0 : parse_email (fun _ => bigBody) (fun s => s) (some msgC9) false =
      Except.ok (some (buildRecord (fun s => s) ("", "", "") (bigBody, "") "m9" false)) := rfl
  rw [h0]
  have hch : chooseText (fun s => s) bigBody "" = bigBody := by
    unfold chooseText
    rw [if_neg (by simp), if_neg (by simp)]
  have hb : buildRecord (fun s => s) ("", "", "") (bigBody, "") "m9" false =
      EmailData.mk "m9" "" "" "" "hi" none := by
    simp only [buildRecord, hch]
    rw [if_pos bigBody_ne_empty, pyCollapseWs_bigBody]
    rfl
  rw [hb]

theorem isPrefixOf_take (k : List Char) :
    ∀ (x : List Char) (m : Nat), k.isPrefixOf (x.take m) = true →
      k.isPrefixOf x = true ∧ k.length ≤ m := by
  induction k with
  | nil => intro x m _; exact ⟨by cases x <;> rfl, Nat.zero_le m⟩
  | cons a as ih =>
    intro x m h
    cases x with
    | nil =>
      rw [List.take_nil] at h
      exact absurd h (by simp [List.isPrefixOf])
    | cons b bs =>
      cases m with
      | zero => exact absurd h (by simp [List.isPrefixOf])
      | succ m2 =>
        rw [List.take_succ_cons] at h
        simp only [List.isPrefixOf, Bool.and_eq_true] at h ⊢
        obtain ⟨hab, hrest⟩ := h
        obtain ⟨h1, h2⟩ := ih bs m2 hrest
        refine ⟨⟨hab, h1⟩, ?_⟩
        simp only [List.length_cons]
        omega

theorem occursAt_take (k hay : List Char) (p m : Nat) (hk : k ≠ [])
    (h : occursAt k (hay.take m) p = true) :
    occursAt k hay p = true ∧ p + k.length ≤ m := by
  unfold occursAt at h ⊢
  rw [List.drop_take] at h
  obtain ⟨h1, h2⟩ := isPrefixOf_take k _ _ h
  have hk1 : 1 ≤ k.length := by
    cases k
    · exact absurd rfl hk
    · simp
  exact ⟨h1, by omega⟩

theorem string_data_ne (k : String) (hk : k ≠ "") : k.data ≠ [] := by
  intro hd
  apply hk
  cases k
  simp only at hd
  rw [hd]

theorem occursAt_lt_length (k hay : List Char) (p : Nat) (hk : k ≠ [])
    (h : occursAt k hay p = true) : p < hay.length := by
  by_contra hge
  rw [Nat.not_lt] at hge
  unfold occursAt at h
  rw [List.drop_eq_nil_of_le hge] at h
  cases k
  · exact absurd rfl hk
  · exact absurd h (by simp [List.isPrefixOf])

theorem pyContains_chop_false (s k : String) (hk : k ≠ "")
    (hocc : occAllBeyond (pyLower k).data (pyLower s).data 200 = true) :
    pyContains (pyLower (chopLeft 200 s)) (pyLower k) = false := by
  have hcomm : (pyLower (chopLeft 200 s)).data = ((pyLower s).data).take 200 := by
    show (s.data.take 200).map Char.toLower = (s.data.map Char.toLower).take 200
    rw [List.map_take]
  by_contra hb
  rw [Bool.not_eq_false] at hb
  unfold pyContains at hb
  rw [List.any_eq_true] at hb
  obtain ⟨p, hpmem, hocc2⟩ := hb
  rw [hcomm] at hocc2
  have hkd : (pyLower k).data ≠ [] := by
    show k.data.map Char.toLower ≠ []
    simp [string_data_ne k hk]
  obtain ⟨hoc, hle⟩ := occursAt_take _ _ p 200 hkd hocc2
  have hk1 : 1 ≤ (pyLower k).data.length := by
    rcases hkde : (pyLower k).data with _ | ⟨c, cs⟩
    · exact absurd hkde hkd
    · simp
  have hrange : p ∈ List.range ((pyLower s).data.length + 1) := by
    rw [List.mem_range]
    have := occursAt_lt_length _ _ p hkd hoc
    omega
  have hall := List.all_eq_true.mp hocc p hrange
  rw [hoc] at hall
  simp only [Bool.not_true, Bool.false_or, decide_eq_true_eq] at hall
  omega

theorem string_contains_iff (l : List String) (x : String) :
    l.contains x = true ↔ x ∈ l := by
  induction l with
  | nil => simp
  | cons a tl ih =>
    simp only [List.contains_cons, Bool.or_eq_true, List.mem_cons, ih, beq_iff_eq]

theorem processLoop_cons_step (env : PipelineEnv) (m : String) (rest : List String)
    (st : RunState) (hmem : st.processed.contains m = false) :
    processLoop env (m :: rest) st =
      match classifyMsg env m with
      | MsgOutcome.raised e => (st, some e)
      | MsgOutcome.noEffect => processLoop env rest st
      | MsgOutcome.filteredOut _ =>
        processLoop env rest (RunState.mk (addId st.processed m) st.rows
          st.successful (st.filtered + 1) st.skipped)
      | MsgOutcome.appended ed =>
        processLoop env rest (RunState.mk (addId st.processed m)
          (st.rows ++ [emailRow env.cfg ed]) (st.successful + 1)
          st.filtered st.skipped) := by
  simp only [processLoop, classifyMsg, hmem]
  rw [if_neg Bool.false_ne_true]
  cases hf : env.fetch m with
  | none => rfl
  | some msg =>
    show (match parse_email env.decode env.unescape (some msg) false with
      | Except.error e => (st, some e)
      | Except.ok none => processLoop env rest st
      | Except.ok (some ed) =>
        if (!should_process_email env.cfg ed) = true then
          processLoop env rest (RunState.mk (addId st.processed m) st.rows
            st.successful (st.filtered + 1) st.skipped)
        else if env.append (emailRow env.cfg ed) = true then
          processLoop env rest (RunState.mk (addId st.processed m)
            (st.rows ++ [emailRow env.cfg ed]) (st.successful + 1)
            st.filtered st.skipped)
        else processLoop env rest st) =
      match (match parse_email env.decode env.unescape (some msg) false with
        | Except.error e => MsgOutcome.raised e
        | Except.ok none => MsgOutcome.noEffect
        | Except.ok (some ed) =>
          if (!should_process_email env.cfg ed) = true then MsgOutcome.filteredOut ed
          else if env.append (emailRow env.cfg ed) = true then MsgOutcome.appended ed
          else MsgOutcome.noEffect) with
      | MsgOutcome.raised e => (st, some e)
      | MsgOutcome.noEffect => processLoop env rest st
      | MsgOutcome.filteredOut _ =>
        processLoop env rest (RunState.mk (addId st.processed m) st.rows
          st.successful (st.filtered + 1) st.skipped)
      | MsgOutcome.appended ed =>
        processLoop env rest (RunState.mk (addId st.processed m)
          (st.rows ++ [emailRow env.cfg ed]) (st.successful + 1)
          st.filtered st.skipped)
    cases hp : parse_email env.decode env.unescape (some msg) false with
    | error e => rfl
    | ok oed =>
      cases oed with
      | none => rfl
      | some ed =>
        show (if (!should_process_email env.cfg ed) = true then
            processLoop env rest (RunState.mk (addId st.processed m) st.rows
              st.successful (st.filtered + 1) st.skipped)
          else if env.append (emailRow env.cfg ed) = true then
            processLoop env rest (RunState.mk (addId st.processed m)
              (st.rows ++ [emailRow env.cfg ed]) (st.successful + 1)
              st.filtered st.skipped)
          else processLoop env rest st) =
          match (if (!should_process_email env.cfg ed) = true then
              MsgOutcome.filteredOut ed
            else if env.append (emailRow env.cfg ed) = true then MsgOutcome.appended ed
            else MsgOutcome.noEffect) with
          | MsgOutcome.raised e => (st, some e)
          | MsgOutcome.noEffect => processLoop env rest st
          | MsgOutcome.filteredOut _ =>
            processLoop env rest (RunState.mk (addId st.processed m) st.rows
              st.successful (st.filtered + 1) st.skipped)
          | MsgOutcome.appended ed2 =>
            processLoop env rest (RunState.mk (addId st.processed m)
              (st.rows ++ [emailRow env.cfg ed2]) (st.successful + 1)
              st.filtered st.skipped)
        cases hs : should_process_email env.cfg ed with
        | false => rfl
        | true =>
          cases ha : env.append (emailRow env.cfg ed) with
          | false => rfl
          | true => rfl

theorem processLoop_cons_skip (env : PipelineEnv) (m : String) (rest : List String)
    (st : RunState) (hmem : st.processed.contains m = true) :
    processLoop env (m :: rest) st =
      processLoop env rest (RunState.mk st.processed st.rows st.successful
        st.filtered (st.skipped + 1)) := by
  simp only [processLoop, hmem]
  rw [if_pos trivial]

theorem classify_noEffect_of_not_terminal (env : PipelineEnv) (m : String)
    (h1 : (classifyMsg env m).isRaised = false)
    (h2 : (classifyMsg env m).isTerminal = false) :
    classifyMsg env m = MsgOutcome.noEffect := by
  rcases hc : classifyMsg env m with e | _ | ed | ed
  · rw [hc] at h1
    simp [MsgOutcome.isRaised] at h1
  · rfl
  · rw [hc] at h2
    simp [MsgOutcome.isTerminal] at h2
  · rw [hc] at h2
    simp [MsgOutcome.isTerminal] at h2

theorem processLoop_first_run (env : PipelineEnv) :
    ∀ (msgs : List String) (st : RunState),
    (∀ m ∈ msgs, (classifyMsg env m).isRaised = false) →
    (∀ m ∈ msgs, st.processed.contains m = false) →
    msgs.Nodup →
    processLoop env msgs st =
      (RunState.mk
        ((msgs.filter fun x => (classifyMsg env x).isTerminal).reverse ++ st.processed)
        (st.rows ++ msgs.filterMap (appendedRow env))
        (st.successful + msgs.countP fun x => (classifyMsg env x).isAppended)
        (st.filtered + msgs.countP fun x => (classifyMsg env x).isFilteredOut)
        st.skipped, none)
  | [], st => by
    intro _ _ _
    simp [processLoop]
  | m :: rest, st => by
    intro hsafe hdisj hnodup
    have hmem : st.processed.contains m = false := hdisj m (List.mem_cons_self m rest)
    have hsafem : (classifyMsg env m).isRaised = false :=
      hsafe m (List.mem_cons_self m rest)
    have hsafer : ∀ x ∈ rest, (classifyMsg env x).isRaised = false :=
      fun x hx => hsafe x (List.mem_cons_of_mem m hx)
    have hnodupr : rest.Nodup := (List.nodup_cons.mp hnodup).2
    have hmnotr : m ∉ rest := (List.nodup_cons.mp hnodup).1
    have hdisjr : ∀ x ∈ rest, st.processed.contains x = false :=
      fun x hx => hdisj x (List.mem_cons_of_mem m hx)
    rw [processLoop_cons_step env m rest st hmem]
    rcases hc : classifyMsg env m with e | _ | ed | ed
    · rw [hc] at hsafem
      simp [MsgOutcome.isRaised] at hsafem
    · -- noEffect: the aggregates over m :: rest equal those over rest
      have hft : ((m :: rest).filter fun x => (classifyMsg env x).isTerminal) =
          rest.filter fun x => (classifyMsg env x).isTerminal := by
        simp only [List.filter_cons]
        rw [hc]
        rfl
      have har : appendedRow env m = none := by
        unfold appendedRow
        rw [hc]
      have hfm : (m :: rest).filterMap (appendedRow env) =
          rest.filterMap (appendedRow env) := by
        rw [List.filterMap_cons, har]
      have hcapp : ((m :: rest).countP fun x => (classifyMsg env x).isAppended) =
          rest.countP fun x => (classifyMsg env x).isAppended := by
        rw [List.countP_cons, hc]
        rfl
      have hcfil : ((m :: rest).countP fun x => (classifyMsg env x).isFilteredOut) =
          rest.countP fun x => (classifyMsg env x).isFilteredOut := by
        rw [List.countP_cons, hc]
        rfl
      show processLoop env rest st = _
      rw [processLoop_first_run env rest st hsafer hdisjr hnodupr]
      rw [hft, hfm, hcapp, hcfil]
    · -- filteredOut: m enters the ledger and the filtered aggregate
      have haddid : addId st.processed m = m :: st.processed := by
        unfold addId
        rw [hmem]
        rfl
      have hdisj2 : ∀ x ∈ rest,
          (RunState.mk (addId st.processed m) st.rows st.successful
            (st.filtered + 1) st.skipped).processed.contains x = false := by
        intro x hx
        show (addId st.processed m).contains x = false
        rw [haddid]
        rw [Bool.eq_false_iff]
        intro hcontr
        rcases List.mem_cons.mp ((string_contains_iff _ _).mp hcontr) with h | h
        · exact hmnotr (h ▸ hx)
        · have hfx := hdisjr x hx
          have htx := (string_contains_iff _ _).mpr h
          rw [hfx] at htx
          exact Bool.false_ne_true htx
      have hft : ((m :: rest).filter fun x => (classifyMsg env x).isTerminal) =
          m :: (rest.filter fun x => (classifyMsg env x).isTerminal) := by
        simp only [List.filter_cons]
        rw [hc]
        rfl
      have har : appendedRow env m = none := by
        unfold appendedRow
        rw [hc]
      have hfm : (m :: rest).filterMap (appendedRow env) =
          rest.filterMap (appendedRow env) := by
        rw [List.filterMap_cons, har]
      have hcapp : ((m :: rest).countP fun x => (classifyMsg env x).isAppended) =
          rest.countP fun x => (classifyMsg env x).isAppended := by
        rw [List.countP_cons, hc]
        rfl
      have hcfil : ((m :: rest).countP fun x => (classifyMsg env x).isFilteredOut) =
          (rest.countP fun x => (classifyMsg env x).isFilteredOut) + 1 := by
        rw [List.countP_cons, hc]
        rfl
      show processLoop env rest
        (RunState.mk (addId st.processed m) st.rows st.successful
          (st.filtered + 1) st.skipped) = _
      refine Eq.trans (processLoop_first_run env rest _ hsafer hdisj2 hnodupr) ?_
      rw [Prod.mk.injEq]
      refine ⟨?_, rfl⟩
      rw [RunState.mk.injEq]
      refine ⟨?_, ?_, ?_, ?_, rfl⟩
      · rw [hft, haddid, List.reverse_cons, List.append_assoc]
        rfl
      · rw [hfm]
      · rw [hcapp]
      · rw [hcfil]
        show st.filtered + 1 +
          (rest.countP fun x => (classifyMsg env x).isFilteredOut) = _
        omega
    · -- appended: m enters the ledger, the rows and the appended aggregate
      have haddid : addId st.processed m = m :: st.processed := by
        unfold addId
        rw [hmem]
        rfl
      have hdisj2 : ∀ x ∈ rest,
          (RunState.mk (addId st.processed m)
            (st.rows ++ [emailRow env.cfg ed]) (st.successful + 1)
            st.filtered st.skipped).processed.contains x = false := by
        intro x hx
        show (addId st.processed m).contains x = false
        rw [haddid]
        rw [Bool.eq_false_iff]
        intro hcontr
        rcases List.mem_cons.mp ((string_contains_iff _ _).mp hcontr) with h | h
        · exact hmnotr (h ▸ hx)
        · have hfx := hdisjr x hx
          have htx := (string_contains_iff _ _).mpr h
          rw [hfx] at htx
          exact Bool.false_ne_true htx
      have hft : ((m :: rest).filter fun x => (classifyMsg env x).isTerminal) =
          m :: (rest.filter fun x => (classifyMsg env x).isTerminal) := by
        simp only [List.filter_cons]
        rw [hc]
        rfl
      have har : appendedRow env m = some (emailRow env.cfg ed) := by
        unfold appendedRow
        rw [hc]
      have hfm : (m :: rest).filterMap (appendedRow env) =
          emailRow env.cfg ed :: rest.filterMap (appendedRow env) := by
        rw [List.filterMap_cons, har]
      have hcapp : ((m :: rest).countP fun x => (classifyMsg env x).isAppended) =
          (rest.countP fun x => (classifyMsg env x).isAppended) + 1 := by
        rw [List.countP_cons, hc]
        rfl
      have hcfil : ((m :: rest).countP fun x => (classifyMsg env x).isFilteredOut) =
          rest.countP fun x => (classifyMsg env x).isFilteredOut := by
        rw [List.countP_cons, hc]
        rfl
      show processLoop env rest
        (RunState.mk (addId st.processed m)
          (st.rows ++ [emailRow env.cfg ed]) (st.successful + 1)
          st.filtered st.skipped) = _
      refine Eq.trans (processLoop_first_run env rest _ hsafer hdisj2 hnodupr) ?_
      rw [Prod.mk.injEq]
      refine ⟨?_, rfl⟩
      rw [RunState.mk.injEq]
      refine ⟨?_, ?_, ?_, ?_, rfl⟩
      · rw [hft, haddid, List.reverse_cons, List.append_assoc]
        rfl
      · show (st.rows ++ [emailRow env.cfg ed]) ++
            rest.filterMap (appendedRow env) = _
        rw [hfm, List.append_assoc]
        rfl
      · rw [hcapp]
        show st.successful + 1 +
          (rest.countP fun x => (classifyMsg env x).isAppended) = _
        omega
      · rw [hcfil]

theorem processLoop_all_ledgered (env : PipelineEnv) :
    ∀ (msgs : List String) (st : RunState),
    (∀ m ∈ msgs, (classifyMsg env m).isRaised = false) →
    (∀ m ∈ msgs, st.processed.contains m = (classifyMsg env m).isTerminal) →
    processLoop env msgs st =
      (RunState.mk st.processed st.rows st.successful st.filtered
        (st.skipped + msgs.countP fun x => (classifyMsg env x).isTerminal), none)
  | [], st => by
    intro _ _
    simp [processLoop]
  | m :: rest, st => by
    intro hsafe hled
    have hledm : st.processed.contains m = (classifyMsg env m).isTerminal :=
      hled m (List.mem_cons_self m rest)
    have hsafer : ∀ x ∈ rest, (classifyMsg env x).isRaised = false :=
      fun x hx => hsafe x (List.mem_cons_of_mem m hx)
    have hledr : ∀ x ∈ rest, st.processed.contains x = (classifyMsg env x).isTerminal :=
      fun x hx => hled x (List.mem_cons_of_mem m hx)
    rcases ht : (classifyMsg env m).isTerminal with _ | _
    · have hmem : st.processed.contains m = false := by rw [hledm, ht]
      have hne : classifyMsg env m = MsgOutcome.noEffect :=
        classify_noEffect_of_not_terminal env m (hsafe m (List.mem_cons_self m rest)) ht
      have hcnt : ((m :: rest).countP fun x => (classifyMsg env x).isTerminal) =
          rest.countP fun x => (classifyMsg env x).isTerminal := by
        rw [List.countP_cons, ht]
        rfl
      rw [processLoop_cons_step env m rest st hmem, hne]
      show processLoop env rest st = _
      rw [processLoop_all_ledgered env rest st hsafer hledr]
      rw [hcnt]
    · have hmem : st.processed.contains m = true := by rw [hledm, ht]
      have hcnt : ((m :: rest).countP fun x => (classifyMsg env x).isTerminal) =
          (rest.countP fun x => (classifyMsg env x).isTerminal) + 1 := by
        rw [List.countP_cons, ht]
        rfl
      rw [processLoop_cons_skip env m rest st hmem]
      have hledr2 : ∀ x ∈ rest,
          (RunState.mk st.processed st.rows st.successful st.filtered
            (st.skipped + 1)).processed.contains x = (classifyMsg env x).isTerminal :=
        fun x hx => hledr x hx
      refine Eq.trans (processLoop_all_ledgered env rest _ hsafer hledr2) ?_
      rw [Prod.mk.injEq]
      refine ⟨?_, rfl⟩
      rw [RunState.mk.injEq]
      refine ⟨rfl, rfl, rfl, rfl, ?_⟩
      rw [hcnt]
      show st.skipped + 1 + (rest.countP fun x => (classifyMsg env x).isTerminal) = _
      omega

theorem countP_terminal_split (env : PipelineEnv) :
    ∀ msgs : List String,
    (msgs.countP fun m => (classifyMsg env m).isTerminal) =
      (msgs.countP fun m => (classifyMsg env m).isAppended) +
      (msgs.countP fun m => (classifyMsg env m).isFilteredOut)
  | [] => by simp
  | m :: rest => by
    have ih := countP_terminal_split env rest
    rw [List.countP_cons, List.countP_cons, List.countP_cons]
    rcases hc : classifyMsg env m with e | _ | ed | ed
    · show (rest.countP fun x => (classifyMsg env x).isTerminal) + 0 =
        ((rest.countP fun x => (classifyMsg env x).isAppended) + 0) +
        ((rest.countP fun x => (classifyMsg env x).isFilteredOut) + 0)
      omega
    · show (rest.countP fun x => (classifyMsg env x).isTerminal) + 0 =
        ((rest.countP fun x => (classifyMsg env x).isAppended) + 0) +
        ((rest.countP fun x => (classifyMsg env x).isFilteredOut) + 0)
      omega
    · show (rest.countP fun x => (classifyMsg env x).isTerminal) + 1 =
        ((rest.countP fun x => (classifyMsg env x).isAppended) + 0) +
        ((rest.countP fun x => (classifyMsg env x).isFilteredOut) + 1)
      omega
    · show (rest.countP fun x => (classifyMsg env x).isTerminal) + 1 =
        ((rest.countP fun x => (classifyMsg env x).isAppended) + 1) +
        ((rest.countP fun x => (classifyMsg env x).isFilteredOut) + 0)
      omega


/-! ## Claim theorems -/

/-- C1, counterexample.  The claim states that with filtering enabled and
a non-empty senderDomains list, a record whose from field contains no "@"
does not pass the domain axis (pass iff the domain equals an allowed
domain).  On the code the record from "alice" has an empty domain, which
equals no allowed domain, yet the domain axis passes and
should_process_email accepts the record: the source only rejects when the
domain is non-empty (`if domain and domain.lower() not in ...`). -/
theorem C1_domain_axis_counterexample :
    should_process_email cfgC1 recC1 = true ∧
    domainAxisPasses cfgC1 recC1.fromEmail = true ∧
    specDomainAfterLastAt recC1.fromEmail = "" ∧
    ¬∃ d ∈ cfgC1.sender_domains,
      pyLower (specDomainAfterLastAt recC1.fromEmail) = pyLower d := by
  refine ⟨by decide, by decide, by decide, by decide⟩

/-- C1, amended: for every record and every FilterConfig with filtering
enabled and a non-empty senderDomains list, the record passes the domain
axis if and only if the substring after the last "@" of the from field is
empty (in particular when from contains no "@") or case-insensitively
equals one of the allowed domains. -/
theorem C1_domain_axis_amended (cfg : FilterConfig) (r : EmailData)
    (hen : cfg.enable_filtering = true) (hne : cfg.sender_domains ≠ []) :
    domainAxisPasses cfg r.fromEmail = true ↔
      (specDomainAfterLastAt r.fromEmail = "" ∨
        ∃ d ∈ cfg.sender_domains,
          pyLower d = pyLower (specDomainAfterLastAt r.fromEmail)) := by
  unfold domainAxisPasses
  rw [domainOf_eq_spec]
  by_cases hd : specDomainAfterLastAt r.fromEmail = ""
  · simp [hd]
  · simp [hd]

/-- C1 witness: a record from jane@example.com against allowed domain
"Example.COM" passes the domain axis by case-insensitive equality. -/
theorem C1_domain_axis_amended_witness :
    domainAxisPasses cfgC1w recC1w.fromEmail = true ↔
      (specDomainAfterLastAt recC1w.fromEmail = "" ∨
        ∃ d ∈ cfgC1w.sender_domains,
          pyLower d = pyLower (specDomainAfterLastAt recC1w.fromEmail)) :=
  C1_domain_axis_amended cfgC1w recC1w rfl (by decide)

/-- C5: for every valid datetime, parse_date applied to its canonical
YYYY-MM-DD HH:MM:SS rendering returns that string unchanged: the RFC-822
formats fail on a digit-initial string, the third format reparses the
canonical fields, and strftime re-renders them identically, so the
normalizer is idempotent on its own output. -/
theorem C5_normalize_canonical_roundtrip (dt : PyDateTime) (hv : validDate dt = true) :
    parse_date (strftimeCanonical dt) = strftimeCanonical dt := by
  unfold parse_date
  rw [if_neg (strftime_ne_empty dt), cleanDateString_strftime]
  have h1 : runFormat fmt1Matches (strftimeCanonical dt).data = none :=
    runFormat_none_of_nil _ _ (fmt1Matches_nil _ _ (digitChar_mod_isDigit _))
  have h2 : runFormat fmt2Matches (strftimeCanonical dt).data = none :=
    runFormat_none_of_nil _ _ (fmt2Matches_nil _ _ _ _ (digitChar_mod_isDigit _)
      (digitChar_mod_isDigit _) (digitChar_mod_isDigit _))
  have h3 := runFormat_fmt3_canonical dt hv
  have hfind : pyDateFormats.findSome?
      (fun f => runFormat f (strftimeCanonical dt).data) = some dt := by
    unfold pyDateFormats
    simp only [List.findSome?_cons, h1, h2, h3]
  rw [hfind]

/-- C5 witness: the canonical timestamp 2023-01-02 10:00:00 round-trips. -/
theorem C5_normalize_canonical_roundtrip_witness :
    validDate (PyDateTime.mk 2023 1 2 10 0 0) = true ∧
    parse_date "2023-01-02 10:00:00" = "2023-01-02 10:00:00" := by
  constructor
  · decide
  · have h := C5_normalize_canonical_roundtrip (PyDateTime.mk 2023 1 2 10 0 0) (by decide)
    rw [show ("2023-01-02 10:00:00" : String) =
      strftimeCanonical (PyDateTime.mk 2023 1 2 10 0 0) from by decide]
    exact h

/-- C6: parse_date is total.  When every format fails on the cleaned
string it returns the original raw string unchanged; when a format
matches, the first match in list order wins and the result is its
canonical rendering; and the raw header
"Mon, 2 Jan 2023 10:00:00 +0000 (UTC)" normalizes to
"2023-01-02 10:00:00". -/
theorem C6_parse_date_total :
    (∀ s : String, (∀ f ∈ pyDateFormats, runFormat f (cleanDateString s).data = none) →
      parse_date s = s) ∧
    (∀ (s : String) (dtv : PyDateTime), s ≠ "" →
      pyDateFormats.findSome? (fun f => runFormat f (cleanDateString s).data) = some dtv →
      parse_date s = strftimeCanonical dtv) ∧
    parse_date "Mon, 2 Jan 2023 10:00:00 +0000 (UTC)" = "2023-01-02 10:00:00" := by
  refine ⟨?_, ?_, by decide⟩
  · intro s hall
    unfold parse_date
    by_cases hs : s = ""
    · rw [if_pos hs, hs]
    · rw [if_neg hs]
      have hnone : pyDateFormats.findSome?
          (fun f => runFormat f (cleanDateString s).data) = none :=
        List.findSome?_eq_none_iff.mpr hall
      rw [hnone]
  · intro s dtv hs hfind
    unfold parse_date
    rw [if_neg hs, hfind]

/-- C6 witness: a string no format matches is returned unchanged. -/
theorem C6_parse_date_total_witness : parse_date "hello world" = "hello world" :=
  C6_parse_date_total.1 "hello world" (by decide)

/-- C7: for a multipart payload, body extraction returns exactly the
longest text/plain leaf (ties keeping the first) and, independently, the
longest text/html leaf, over the leaves the preorder traversal visits;
multipart containers are recursed into and other mime types contribute
nothing. -/
theorem C7_longest_part_selection (decode : String → String) (payload : Payload)
    (ps : List PPart) (pl ht : String) (hp : payload.parts = some ps)
    (h : get_email_bodies decode payload = Except.ok (pl, ht)) :
    pl = selectLongest (textLeavesList decode "text/plain" ps) ∧
    ht = selectLongest (textLeavesList decode "text/html" ps) := by
  unfold get_email_bodies at h
  rw [hp] at h
  obtain ⟨h1, h2⟩ := extract_parts_spec decode ("", "") ps (pl, ht) h
  rw [← bestOf_empty_eq_selectLongest, ← bestOf_empty_eq_selectLongest]
  exact ⟨h1, h2⟩

/-- C7 witness: on the concrete tree the longer of the two plain leaves
wins and the single html leaf is selected. -/
theorem C7_longest_part_selection_witness :
    ("hello there" : String) =
      selectLongest (textLeavesList (fun s => s) "text/plain" partsC7) ∧
    ("<b>x</b>" : String) =
      selectLongest (textLeavesList (fun s => s) "text/html" partsC7) :=
  C7_longest_part_selection (fun s => s) payloadC7 partsC7 "hello there" "<b>x</b>" rfl rfl

/-- C8: the record body follows the HTML fallback policy — empty plain
text with HTML present takes the HTML-derived text, non-empty plain text
shorter than 50 characters with HTML present also takes the HTML-derived
text, and otherwise the plain text is kept (whitespace-collapsed and
truncated in every case); and a message whose only part is the HTML
document of the specification example decodes to body "Hello world". -/
theorem C8_body_never_html :
    (∀ (decode unescape : String → String) (msg : PyMessage) (payload : Payload)
      (ed : EmailData) (pl ht : String) (ih : Bool),
      msg.payload = some payload →
      get_email_bodies decode payload = Except.ok (pl, ht) →
      parse_email decode unescape (some msg) ih = Except.ok (some ed) →
      (((pl = "" ∧ ht ≠ "") ∨ (pl ≠ "" ∧ ht ≠ "" ∧ pl.length < 50)) →
        ed.body = chopLeft 5000 (pyStrip (pyCollapseWs (html_to_text unescape ht)))) ∧
      ((pl ≠ "" ∧ (ht = "" ∨ 50 ≤ pl.length)) →
        ed.body = chopLeft 5000 (pyStrip (pyCollapseWs pl)))) ∧
    (∀ decode unescape : String → String,
      decode "B64DATA" = exHtml → unescape exHtml = exHtml →
      parse_email decode unescape (some msgC8) false =
        Except.ok (some (EmailData.mk "m8" "" "" "" "Hello world" none))) := by
  constructor
  · intro decode unescape msg payload ed pl ht ih hpay hbody hp
    obtain ⟨payload2, headers, fsd, bodies, mid, hpay2, hhdr, hfold, hbod2, hid, hed⟩ :=
      parse_email_ok_elim decode unescape msg ed ih hp
    have hpe : payload2 = payload := by
      rw [hpay] at hpay2
      exact (Option.some.injEq _ _ ▸ hpay2).symm
    subst hpe
    rw [hbody] at hbod2
    have hbe : bodies = (pl, ht) := by
      simpa using hbod2.symm
    subst hbe
    rw [hed, buildRecord_body]
    constructor
    · rintro (⟨hpl, hht⟩ | ⟨hpl, hht, hlen⟩)
      · rw [show chooseText unescape (pl, ht).1 (pl, ht).2 = html_to_text unescape ht from by
          unfold chooseText
          rw [if_pos (by simp [hpl, hht])]]
      · rw [show chooseText unescape (pl, ht).1 (pl, ht).2 = html_to_text unescape ht from by
          unfold chooseText
          rw [if_neg (by simp [hpl]), if_pos (by simp [hpl, hht, hlen])]]
    · rintro ⟨hpl, hrest⟩
      have hcond2 : ¬((decide (pl ≠ "") && decide (ht ≠ "") &&
          decide (pl.length < 50)) = true) := by
        rcases hrest with hht | hlen
        · simp [hht]
        · simp
          intro _ _
          omega
      rw [show chooseText unescape (pl, ht).1 (pl, ht).2 = pl from by
        unfold chooseText
        rw [if_neg (by simp [hpl]), if_neg hcond2]]
  · intro decode unescape hdec hun
    have hhtml : html_to_text unescape exHtml = "Hello world" := by
      unfold html_to_text
      rw [if_neg (by decide), hun]
      decide
    have h0 : parse_email decode unescape (some msgC8) false =
        Except.ok (some (buildRecord unescape ("", "", "")
          ("", decode "B64DATA") "m8" false)) := rfl
    rw [h0, hdec]
    have hchoose : chooseText unescape "" exHtml = html_to_text unescape exHtml := by
      unfold chooseText
      rw [if_pos (by decide)]
    unfold buildRecord
    rw [hchoose, hhtml]
    rfl

/-- C8 witness: the specification example evaluated with concrete decode
and unescape functions. -/
theorem C8_body_never_html_witness :
    parse_email (fun _ => exHtml) (fun s => s) (some msgC8) false =
      Except.ok (some (EmailData.mk "m8" "" "" "" "Hello world" none)) :=
  C8_body_never_html.2 (fun _ => exHtml) (fun s => s) rfl rfl

/-- C9, counterexample.  The claim states a decoded plain-text body
longer than 5000 characters yields exactly 5000 characters in the
record, but the whitespace collapse runs before the truncation: a
5003-character body of 5001 spaces and "hi" collapses to "hi", and the
record body has length 2, not 5000. -/
theorem C9_truncation_counterexample :
    5000 < bigBody.length ∧
    parse_email (fun _ => bigBody) (fun s => s) (some msgC9) false =
      Except.ok (some (EmailData.mk "m9" "" "" "" "hi" none)) ∧
    (EmailData.mk "m9" "" "" "" "hi" none).body.length = 2 := by
  refine ⟨?_, parse_email_bigBody, by decide⟩
  rw [bigBody_length]
  omega

/-- C9, amended: the record subject is at most 200 characters, the body
is the whitespace-collapsed selected text truncated to at most 5000
characters — exactly 5000 when the collapsed text itself has at least
5000 characters — and a requested HTML body is at most 10000
characters. -/
theorem C9_truncation_amended (decode unescape : String → String) (msg : PyMessage)
    (payload : Payload) (ed : EmailData) (pl ht : String) (ih : Bool)
    (hpay : msg.payload = some payload)
    (hbody : get_email_bodies decode payload = Except.ok (pl, ht))
    (hp : parse_email decode unescape (some msg) ih = Except.ok (some ed)) :
    ed.subject.length ≤ 200 ∧ ed.body.length ≤ 5000 ∧
    (∀ hb, ed.html_body = some hb → hb.length ≤ 10000) ∧
    ed.body = chopLeft 5000 (pyStrip (pyCollapseWs (chooseText unescape pl ht))) ∧
    (5000 ≤ (pyStrip (pyCollapseWs (chooseText unescape pl ht))).length →
      ed.body.length = 5000) := by
  obtain ⟨payload2, headers, fsd, bodies, mid, hpay2, hhdr, hfold, hbod2, hid, hed⟩ :=
    parse_email_ok_elim decode unescape msg ed ih hp
  have hpe : payload2 = payload := by
    rw [hpay] at hpay2
    exact (Option.some.injEq _ _ ▸ hpay2).symm
  subst hpe
  rw [hbody] at hbod2
  have hbe : bodies = (pl, ht) := by simpa using hbod2.symm
  subst hbe
  refine ⟨?_, ?_, ?_, ?_, ?_⟩
  · rw [hed, buildRecord_subject]
    exact chopLeft_length_le 200 _
  · rw [hed, buildRecord_body]
    exact chopLeft_length_le 5000 _
  · intro hb hhb
    rw [hed] at hhb
    simp only [buildRecord] at hhb
    split_ifs at hhb with hcnd
    simp only [Option.some.injEq] at hhb
    rw [← hhb]
    exact chopLeft_length_le 10000 _
  · rw [hed, buildRecord_body]
  · intro hlen
    rw [hed, buildRecord_body]
    exact chopLeft_length_of_le 5000 _ hlen

/-- C9 witness: the amended bounds at the concrete whitespace-heavy
message. -/
theorem C9_truncation_amended_witness :
    (EmailData.mk "m9" "" "" "" "hi" none).subject.length ≤ 200 ∧
    (EmailData.mk "m9" "" "" "" "hi" none).body.length ≤ 5000 := by
  have h := C9_truncation_amended (fun _ => bigBody) (fun s => s) msgC9 payloadC9
    (EmailData.mk "m9" "" "" "" "hi" none) bigBody "" false rfl rfl parse_email_bigBody
  exact ⟨h.1, h.2.1⟩

/-- C10: filtering and match-reason reporting run on the 200-character
truncated subject stored in the record: when the original subject
exceeds 200 characters, a non-empty keyword whose every occurrence in
the (lowercased) original subject starts at index 200 or beyond fails
the subject axis — should_process_email rejects with that keyword
configured — and yields no subject match reason. -/
theorem C10_filter_on_truncated_subject
    (decode unescape : String → String) (msg : PyMessage) (payload : Payload)
    (headers : List Header) (fsd : String × String × String) (ed : EmailData)
    (k : String) (cfg : FilterConfig) (ih : Bool)
    (hpay : msg.payload = some payload)
    (hhdr : payload.headers = some headers)
    (hfold : headerFold headers ("", "", "") = Except.ok fsd)
    (hp : parse_email decode unescape (some msg) ih = Except.ok (some ed))
    (hlong : 200 < fsd.2.1.length)
    (hk : k ≠ "")
    (hocc : occAllBeyond (pyLower k).data (pyLower fsd.2.1).data 200 = true)
    (hen : cfg.enable_filtering = true)
    (hkw : cfg.subject_keywords = [k]) :
    should_process_email cfg ed = false ∧ subjectMatchReason cfg ed = none := by
  obtain ⟨payload2, headers2, fsd2, bodies, mid, hpay2, hhdr2, hfold2, hbod2, hid, hed⟩ :=
    parse_email_ok_elim decode unescape msg ed ih hp
  have hpe : payload2 = payload := by
    rw [hpay] at hpay2
    exact (Option.some.injEq _ _ ▸ hpay2).symm
  rw [hpe] at hhdr2
  have hhe : headers2 = headers := by
    rw [hhdr] at hhdr2
    exact (Option.some.injEq _ _ ▸ hhdr2).symm
  rw [hhe] at hfold2
  rw [hfold] at hfold2
  have hfe : fsd = fsd2 := by simpa using hfold2
  rw [← hfe] at hed
  have hsubj : ed.subject = chopLeft 200 fsd.2.1 := by
    rw [hed, buildRecord_subject]
  have hfalse := pyContains_chop_false fsd.2.1 k hk hocc
  constructor
  · simp [should_process_email, hen, hkw, subjectAxisPasses, hsubj, hfalse]
  · unfold subjectMatchReason
    rw [if_neg (by simp [hkw])]
    have hfind : cfg.subject_keywords.find? (fun keyword =>
        pyContains (pyLower ed.subject) (pyLower keyword)) = none := by
      rw [hkw, List.find?_cons]
      simp only [hsubj, hfalse]
      rfl
    rw [hfind]

/-- C10 witness: the 204-character subject ending in the keyword is cut
to 200 characters, so the keyword no longer matches. -/
theorem C10_filter_on_truncated_subject_witness :
    should_process_email cfgC10 edC10 = false ∧
    subjectMatchReason cfgC10 edC10 = none :=
  C10_filter_on_truncated_subject (fun s => s) (fun s => s) msgC10 payloadC10
    [Header.mk (some "Subject") (some subjC10)] ("", subjC10, "") edC10 "zkey" cfgC10 false
    rfl rfl rfl rfl (by decide) (by decide) (by decide) rfl rfl

/-- C2: the claim says the date axis enforces minDate/maxDate as
inclusive bounds, but the code never compares dates at all: main.py does
not import datetime, so the try block raises NameError on its first
statement and the bare except swallows it.  A record dated 2020-01-01,
three years before minDate 2023-01-01, passes should_process_email even
though the specified inclusive-bounds comparison rejects it. -/
theorem C2_date_axis_never_filters :
    should_process_email cfgC2 recC2 = true ∧
    dateAxisTry cfgC2 recC2.date = Except.error PyErr.nameError ∧
    dateAxisPasses cfgC2 recC2.date = true ∧
    specDateAxisPasses (some (2023, 1, 1)) none recC2.date = false := by
  exact ⟨by decide, rfl, rfl, by decide⟩

/-- C3: the claim says parse_email raises only when a message lacks its
id or payload, that malformed individual parts degrade to empty strings,
and that one message's decode failure never aborts the rest of the run.
The code contradicts all three in one scenario: badPartMsg has both id
and payload, but its text/plain part lacks the "body" key, so the
unguarded part["body"] indexing raises KeyError; the loop in
process_emails has no try/except, so running over ["bad", "good"] stops
at the first message with the well-formed second message unprocessed
(empty ledger, no rows), even though the second message on its own is
parsed and appended. -/
theorem C3_decode_error_aborts_run :
    parse_email (fun s => s) (fun s => s) (some badPartMsg) false =
      Except.error PyErr.keyError ∧
    process_emails envC3 ["bad", "good"] [] =
      (RunState.mk [] [] 0 0 0, some PyErr.keyError) ∧
    process_emails envC3 ["good"] [] =
      (RunState.mk ["good"] [goodRow] 1 0 0, none) :=
  ⟨rfl, rfl, rfl⟩

/-- C4: running the orchestrator twice over the same unread-id list from
a ledger disjoint from it, when no message raises, gives a first run
that completes, a second run that completes with zero sink appends (no
rows, successful count 0) and a skipped count equal to the first run's
successful + filtered counts; moreover an id enters the first run's
ledger exactly when it was already there or its outcome was terminal
(appended or filtered out) — never on fetch, parse or append failure. -/
theorem C4_second_run_idempotent (env : PipelineEnv) (msgs ledger : List String)
    (hnodup : msgs.Nodup)
    (hdisj : ∀ m ∈ msgs, m ∉ ledger)
    (hsafe : ∀ m ∈ msgs, (classifyMsg env m).isRaised = false) :
    (process_emails env msgs ledger).2 = none ∧
    (process_emails env msgs (process_emails env msgs ledger).1.processed).2 = none ∧
    (process_emails env msgs (process_emails env msgs ledger).1.processed).1.rows = [] ∧
    (process_emails env msgs
      (process_emails env msgs ledger).1.processed).1.successful = 0 ∧
    (process_emails env msgs (process_emails env msgs ledger).1.processed).1.skipped =
      (process_emails env msgs ledger).1.successful +
        (process_emails env msgs ledger).1.filtered ∧
    (∀ x, x ∈ (process_emails env msgs ledger).1.processed ↔
      (x ∈ ledger ∨ (x ∈ msgs ∧ (classifyMsg env x).isTerminal = true))) := by
  have hdisj0 : ∀ m ∈ msgs, (RunState.mk ledger [] 0 0 0).processed.contains m = false := by
    intro m hm
    rw [Bool.eq_false_iff]
    intro hcontr
    exact hdisj m hm ((string_contains_iff _ _).mp hcontr)
  have h1 : process_emails env msgs ledger =
      (RunState.mk
        ((msgs.filter fun m => (classifyMsg env m).isTerminal).reverse ++ ledger)
        (msgs.filterMap (appendedRow env))
        (msgs.countP fun m => (classifyMsg env m).isAppended)
        (msgs.countP fun m => (classifyMsg env m).isFilteredOut)
        0, none) := by
    unfold process_emails
    rw [processLoop_first_run env msgs _ hsafe hdisj0 hnodup]
    rw [Prod.mk.injEq]
    refine ⟨?_, rfl⟩
    rw [RunState.mk.injEq]
    exact ⟨rfl, by simp, by simp, by simp, rfl⟩
    -- the initial counters are zero, so the offsets vanish
  have hmemchar : ∀ x, x ∈ (process_emails env msgs ledger).1.processed ↔
      (x ∈ ledger ∨ (x ∈ msgs ∧ (classifyMsg env x).isTerminal = true)) := by
    intro x
    rw [h1]
    show x ∈ (msgs.filter fun m => (classifyMsg env m).isTerminal).reverse ++ ledger ↔ _
    rw [List.mem_append, List.mem_reverse, List.mem_filter]
    constructor
    · rintro (⟨hx1, hx2⟩ | hx)
      · exact Or.inr ⟨hx1, hx2⟩
      · exact Or.inl hx
    · rintro (hx | ⟨hx1, hx2⟩)
      · exact Or.inr hx
      · exact Or.inl ⟨hx1, hx2⟩
  have hled : ∀ m ∈ msgs,
      (RunState.mk (process_emails env msgs ledger).1.processed [] 0 0 0).processed.contains m =
        (classifyMsg env m).isTerminal := by
    intro m hm
    show ((process_emails env msgs ledger).1.processed).contains m = _
    rcases ht : (classifyMsg env m).isTerminal with _ | _
    · rw [Bool.eq_false_iff]
      intro hcontr
      rcases (hmemchar m).mp ((string_contains_iff _ _).mp hcontr) with h | ⟨_, h⟩
      · exact hdisj m hm h
      · rw [ht] at h
        exact Bool.false_ne_true h
    · exact (string_contains_iff _ _).mpr ((hmemchar m).mpr (Or.inr ⟨hm, ht⟩))
  have h2 : process_emails env msgs (process_emails env msgs ledger).1.processed =
      (RunState.mk (process_emails env msgs ledger).1.processed [] 0 0
        (msgs.countP fun m => (classifyMsg env m).isTerminal), none) := by
    refine Eq.trans (processLoop_all_ledgered env msgs _ hsafe hled) ?_
    rw [Prod.mk.injEq]
    refine ⟨?_, rfl⟩
    rw [RunState.mk.injEq]
    exact ⟨rfl, rfl, rfl, rfl, by simp⟩
  refine ⟨by rw [h1], by rw [h2], by rw [h2], by rw [h2], ?_, hmemchar⟩
  rw [h2, h1]
  show msgs.countP (fun m => (classifyMsg env m).isTerminal) = _
  exact countP_terminal_split env msgs

/-- C4 witness: three messages — one appended, one filtered out, one
whose fetch fails — run twice from an empty ledger; the second run
appends nothing and skips exactly the two terminal ids. -/
theorem C4_second_run_idempotent_witness :
    (process_emails envC4 ["a", "b", "c"] []).2 = none ∧
    (process_emails envC4 ["a", "b", "c"]
      (process_emails envC4 ["a", "b", "c"] []).1.processed).2 = none ∧
    (process_emails envC4 ["a", "b", "c"]
      (process_emails envC4 ["a", "b", "c"] []).1.processed).1.rows = [] ∧
    (process_emails envC4 ["a", "b", "c"]
      (process_emails envC4 ["a", "b", "c"] []).1.processed).1.successful = 0 ∧
    (process_emails envC4 ["a", "b", "c"]
      (process_emails envC4 ["a", "b", "c"] []).1.processed).1.skipped =
      (process_emails envC4 ["a", "b", "c"] []).1.successful +
        (process_emails envC4 ["a", "b", "c"] []).1.filtered := by
  have h := C4_second_run_idempotent envC4 ["a", "b", "c"] []
    (by decide) (by decide) (by decide)
  exact ⟨h.1, h.2.1, h.2.2.1, h.2.2.2.1, h.2.2.2.2.1⟩

end GmailToSheets
